import Mathlib

/-! Verification of fetch-data.js: card rendering, fetch lifecycle and data utilities.

A shallow embedding of `src/fetch-data.js` together with the properties of it that the
specification states.

Modelling conventions (each is stated again at the definition it concerns):

* A record is a JSON-decoded value: `null`, a boolean, a number, a string or a nested mapping,
  and `undefined` for what is absent. Numbers are the integer-valued Numbers (the values that
  JSON record ids, counts and status codes take); strings are sequences of Unicode characters.
* Exceptions are explicit: every operation that can throw returns `Except JsError _`.
* What the script takes from the JavaScript platform and what no source file fixes (the
  Unicode case mapping, the built-in members of values, the text of built-in functions) is a
  parameter, `Platform`.
* The page is explicit state: each write to a DOM element is an `Effect`; a function that
  touches the page returns the trace of its effects, and `UI.run` replays a trace on a state.
-/

set_option maxRecDepth 100000

namespace FetchData

/-! ## Values -/

/-- A JavaScript value as decoded from JSON, and `undefined`. A mapping lists its own
properties in lookup order (the first entry for a key is the one a property read sees).
`num n` is the Number with the integer value `n`. -/
inductive JVal where
  | undefined : JVal
  | null : JVal
  | bool (b : Bool) : JVal
  | num (n : Int) : JVal
  | str (s : String) : JVal
  | obj (fields : List (String × JVal)) : JVal
  deriving Inhabited

/-- A thrown JavaScript exception. `error m` is an `Error` object (or a rejection) whose
`message` is `m`. The next three are `TypeError`s: `typeError base key` is raised on reading
property `key` of `base` when `base` is `undefined` or `null`; `cannotConvert value` on
converting to a primitive a mapping none of whose `toString` and `valueOf` gives one;
`notCallable value member` on calling `value.member()` when the member is not a function.
`other name message` is any other exception, of the error class `name`. -/
inductive JsError where
  | error (message : String) : JsError
  | typeError (base : JVal) (key : String) : JsError
  | cannotConvert (value : JVal) : JsError
  | notCallable (value : JVal) (member : String) : JsError
  | other (name message : String) : JsError

/-- Whether an exception is a `TypeError`. -/
def JsError.isTypeError : JsError → Bool
  | .error _ => false
  | .typeError _ _ => true
  | .cannotConvert _ => true
  | .notCallable _ _ => true
  | .other name _ => name == "TypeError"

/-- ToBoolean: `undefined`, `null`, `false`, `0` and the empty string are falsy. -/
def JVal.truthy : JVal → Bool
  | .undefined => false
  | .null => false
  | .bool b => b
  | .num n => n != 0
  | .str s => s.data != []
  | .obj _ => true

/-- The entry a mapping holds for `key`, if it holds one. -/
def findField (key : String) : List (String × JVal) → Option JVal
  | [] => none
  | (k, v) :: rest => if k = key then some v else findField key rest

/-- Own-property lookup in a mapping: the value of the first entry for `key`, or `undefined`. -/
def lookupField (key : String) : List (String × JVal) → JVal
  | [] => .undefined
  | (k, v) :: rest => if k = key then v else lookupField key rest

/-! ## Number to string -/

/-- The Number nearest to a natural number: the number itself when it has at most 53
significant bits, and otherwise its rounding to 53 significant bits, ties to even. -/
def nearestNumber (x : Nat) : Nat :=
  let bits := Nat.log2 x + 1
  if bits ≤ 53 then x
  else
    let unit := 2 ^ (bits - 53)
    let q := x / unit
    let r := x % unit
    (if 2 * r > unit ∨ (2 * r = unit ∧ q % 2 = 1) then q + 1 else q) * unit

/-- The pairs `(s, n)` of Number::toString for a digit count `k`: `s` has `k` digits and
`s × 10 ^ (n - k)` is the Number `x`. -/
def digitCandidates (x k : Nat) : List (Nat × Nat) :=
  ([(Nat.toDigits 10 x).length, (Nat.toDigits 10 x).length + 1].flatMap fun n =>
    [x / 10 ^ (n - k), x / 10 ^ (n - k) + 1].map fun s => (s, n)).filter fun sn =>
      10 ^ (k - 1) ≤ sn.1 && sn.1 < 10 ^ k && nearestNumber (sn.1 * 10 ^ (sn.2 - k)) == x

/-- The distance from `x` of the value a candidate denotes. -/
def candidateDistance (x k : Nat) (sn : Nat × Nat) : Nat :=
  if sn.1 * 10 ^ (sn.2 - k) ≤ x then x - sn.1 * 10 ^ (sn.2 - k)
  else sn.1 * 10 ^ (sn.2 - k) - x

/-- The candidate Number::toString chooses among those of `k` digits: the closest to `x`,
and of two equally close the even one. -/
def bestCandidate (x k : Nat) : Option (Nat × Nat) :=
  (digitCandidates x k).foldl (fun chosen sn =>
    match chosen with
    | none => some sn
    | some c =>
      if candidateDistance x k sn < candidateDistance x k c ∨
          (candidateDistance x k sn = candidateDistance x k c ∧ sn.1 % 2 = 0 ∧ c.1 % 2 = 1)
      then some sn else some c) none

/-- The least digit count from `k` on that has a candidate, with the candidate. -/
def shortestDigits (x : Nat) : Nat → Nat → Option (Nat × Nat × Nat)
  | 0, _ => none
  | fuel + 1, k =>
    match bestCandidate x k with
    | some (s, n) => some (s, n, k)
    | none => shortestDigits x fuel (k + 1)

/-- Number::toString of a natural number of magnitude at least `10 ^ 21`: the shortest digits
that denote it, in exponent notation, as in `1e+21` and `1.1805916207174113e+21`. -/
def exponentForm (x : Nat) : String :=
  match shortestDigits x 21 1 with
  | some (s, n, k) =>
    (if k = 1 then String.mk (Nat.toDigits 10 s)
      else String.mk ((Nat.toDigits 10 s).take 1 ++ '.' :: (Nat.toDigits 10 s).drop 1))
      ++ "e+" ++ toString (n - 1)
  | none => toString x

/-- Number::toString on the integer-valued Numbers: the decimal digits below `10 ^ 21`, and
exponent notation from there on. -/
def numberToString (n : Int) : String :=
  if n.natAbs < 10 ^ 21 then toString n
  else (if n < 0 then "-" else "") ++ exponentForm n.natAbs

/-! ## Conversion to string -/

/-- ToString, as a template literal `${v}` applies it. A mapping is converted through its
`toString`: one inherited from `Object.prototype` gives `[object Object]`; an own entry named
`toString` hides it, is not a function (it was decoded from JSON), and as `valueOf` gives no
primitive either the conversion throws a `TypeError`. -/
def JVal.toStr : JVal → Except JsError String
  | .undefined => .ok "undefined"
  | .null => .ok "null"
  | .bool true => .ok "true"
  | .bool false => .ok "false"
  | .num n => .ok (numberToString n)
  | .str s => .ok s
  | .obj fields =>
    match findField "toString" fields with
    | some _ => .error (.cannotConvert (.obj fields))
    | none => .ok "[object Object]"

/-- The `message` of a caught exception, in the wording V8 gives its `TypeError`s. -/
def JsError.message : JsError → String
  | .error m => m
  | .typeError .null key => "Cannot read properties of null (reading '" ++ key ++ "')"
  | .typeError _ key => "Cannot read properties of undefined (reading '" ++ key ++ "')"
  | .cannotConvert _ => "Cannot convert object to primitive value"
  | .notCallable _ member => "value." ++ member ++ " is not a function"
  | .other _ m => m

/-! ## Strings -/

/-- `String.prototype.toUpperCase`, on the ASCII letters. -/
def toUpperCase (s : String) : String := ⟨s.data.map Char.toUpper⟩

/-- Whether `t` is a prefix of `s`, on character lists. -/
def startsWithChars : List Char → List Char → Bool
  | _, [] => true
  | [], _ :: _ => false
  | c :: s, d :: t => c == d && startsWithChars s t

/-- Whether `t` occurs in `s` at some position, on character lists. -/
def includesChars : List Char → List Char → Bool
  | [], t => startsWithChars [] t
  | c :: s, t => startsWithChars (c :: s) t || includesChars s t

/-- `String.prototype.includes`: `s.includes(t)`. -/
def includes (s t : String) : Bool := includesChars s.data t.data

/-- Splitting a character list at every `.`; the result is never empty. -/
def splitDotChars : List Char → List (List Char)
  | [] => [[]]
  | c :: rest =>
    if c = '.' then [] :: splitDotChars rest
    else
      match splitDotChars rest with
      | [] => [[c]]
      | seg :: segs => (c :: seg) :: segs

/-- `path.split('.')`: the segments of a dotted path. -/
def splitDot (path : String) : List String := (splitDotChars path.data).map String.mk

/-- `s.charAt(0)`: the first character as a string, or the empty string. -/
def charAt0 (s : String) : String := ⟨s.data.take 1⟩

/-- `s.slice(1)`: the string without its first character. -/
def slice1 (s : String) : String := ⟨s.data.drop 1⟩

/-! ## createDataCard -/

/-- The property names `createDataCard` reads. None of them names a member of a built-in
prototype (`Object.prototype`, `String.prototype`, `Number.prototype`, `Boolean.prototype`),
so a read of one of them sees own properties only. -/
inductive Field where
  | id | name | username | email | phone | website | company | address
  | street | city | zipcode | title | userId | body | postId

/-- The property name as written in the source. -/
def Field.key : Field → String
  | .id => "id"
  | .name => "name"
  | .username => "username"
  | .email => "email"
  | .phone => "phone"
  | .website => "website"
  | .company => "company"
  | .address => "address"
  | .street => "street"
  | .city => "city"
  | .zipcode => "zipcode"
  | .title => "title"
  | .userId => "userId"
  | .body => "body"
  | .postId => "postId"

/-- The read `base.field` of one of the card's property names. Reading a property of
`undefined` or `null` throws a `TypeError`; a mapping yields its own entry or `undefined`; a
boolean, number or string has no property of such a name and yields `undefined`. -/
def getField (base : JVal) (field : Field) : Except JsError JVal :=
  match base with
  | .undefined => .error (.typeError .undefined field.key)
  | .null => .error (.typeError .null field.key)
  | .obj fields => .ok (lookupField field.key fields)
  | _ => .ok .undefined

/-- The two-level read `item.outer.inner`. -/
def getField2 (item : JVal) (outer inner : Field) : Except JsError JVal := do
  let mid ← getField item outer
  getField mid inner

/-- A substitution `${e}` of a template literal: the expression is evaluated and its value
converted to a string before the next substitution is evaluated. -/
def substitute (value : Except JsError JVal) : Except JsError String := do
  let v ← value
  v.toStr

/-- The identifier expression `item.id || index + 1`. -/
def displayedId (item : JVal) (index : Nat) : Except JsError JVal := do
  let id ← getField item .id
  pure (if id.truthy then id else .num ((index : Int) + 1))

/-- Line break and indentation in front of each line of a card template. -/
def lineIndent : String := "\n                "

/-- Line break and indentation in front of the closing backtick of a card template. -/
def closeIndent : String := "\n            "

/-- The template appended for `case 'users'`. -/
def usersBody (item : JVal) : Except JsError String := do
  let name ← substitute (getField item .name)
  let username ← substitute (getField item .username)
  let email ← substitute (getField item .email)
  let phone ← substitute (getField item .phone)
  let website ← substitute (getField item .website)
  let companyName ← substitute (getField2 item .company .name)
  let street ← substitute (getField2 item .address .street)
  let city ← substitute (getField2 item .address .city)
  let zipcode ← substitute (getField2 item .address .zipcode)
  pure (lineIndent ++ "<h3>" ++ name ++ "</h3>"
    ++ lineIndent ++ "<p><strong>Username:</strong> " ++ username ++ "</p>"
    ++ lineIndent ++ "<p><strong>Email:</strong> " ++ email ++ "</p>"
    ++ lineIndent ++ "<p><strong>Phone:</strong> " ++ phone ++ "</p>"
    ++ lineIndent ++ "<p><strong>Website:</strong> " ++ website ++ "</p>"
    ++ lineIndent ++ "<p><strong>Company:</strong> " ++ companyName ++ "</p>"
    ++ lineIndent ++ "<p><strong>Address:</strong> " ++ street ++ ", " ++ city
    ++ ", " ++ zipcode ++ "</p>"
    ++ closeIndent)

/-- The template appended for `case 'posts'`. -/
def postsBody (item : JVal) : Except JsError String := do
  let title ← substitute (getField item .title)
  let userId ← substitute (getField item .userId)
  let body ← substitute (getField item .body)
  pure (lineIndent ++ "<h3>" ++ title ++ "</h3>"
    ++ lineIndent ++ "<p><strong>User ID:</strong> " ++ userId ++ "</p>"
    ++ lineIndent ++ "<p><strong>Body:</strong> " ++ body ++ "</p>"
    ++ closeIndent)

/-- The template appended for `case 'comments'`. -/
def commentsBody (item : JVal) : Except JsError String := do
  let postId ← substitute (getField item .postId)
  let name ← substitute (getField item .name)
  let email ← substitute (getField item .email)
  let body ← substitute (getField item .body)
  pure (lineIndent ++ "<h3>Comment</h3>"
    ++ lineIndent ++ "<p><strong>Post ID:</strong> " ++ postId ++ "</p>"
    ++ lineIndent ++ "<p><strong>Name:</strong> " ++ name ++ "</p>"
    ++ lineIndent ++ "<p><strong>Email:</strong> " ++ email ++ "</p>"
    ++ lineIndent ++ "<p><strong>Body:</strong> " ++ body ++ "</p>"
    ++ closeIndent)

/-- The `switch (dataType)` of `createDataCard`; a tag with no `case` appends nothing. -/
def cardBody (item : JVal) (dataType : String) : Except JsError String :=
  if dataType = "users" then usersBody item
  else if dataType = "posts" then postsBody item
  else if dataType = "comments" then commentsBody item
  else pure ""

/-- `createDataCard(item, dataType, index)`. -/
def createDataCard (item : JVal) (dataType : String) (index : Nat) : Except JsError String := do
  let cardHtml := "<div class=\"data-card\">"
  let id ← substitute (displayedId item index)
  let cardHtml := cardHtml ++ ("<span class=\"id\">ID: " ++ id ++ "</span>")
  let body ← cardBody item dataType
  let cardHtml := cardHtml ++ body
  pure (cardHtml ++ "</div>")

/-! ## The page -/

/-- A write to the page (or to the console) made by the script. -/
inductive Effect where
  | loadingDisplay (value : String) : Effect
  | errorDisplay (value : String) : Effect
  | errorText (message : String) : Effect
  | titleText (title : String) : Effect
  | contentHtml (html : String) : Effect
  | consoleError (error : JsError) : Effect

/-- The parts of the page the script writes: the `display` style of the loading and error
elements, the text of the error message and of the title, and the markup of the content. -/
structure UI where
  loadingDisplay : String
  errorDisplay : String
  errorText : String
  titleText : String
  contentHtml : String

/-- The page after one write. -/
def UI.apply (ui : UI) : Effect → UI
  | .loadingDisplay v => { ui with loadingDisplay := v }
  | .errorDisplay v => { ui with errorDisplay := v }
  | .errorText m => { ui with errorText := m }
  | .titleText t => { ui with titleText := t }
  | .contentHtml h => { ui with contentHtml := h }
  | .consoleError _ => ui

/-- The page after a trace of writes, applied in order. -/
def UI.run (ui : UI) (trace : List Effect) : UI := trace.foldl UI.apply ui

/-- `showLoading()`. -/
def showLoading : List Effect := [.loadingDisplay "block", .errorDisplay "none"]

/-- `hideLoading()`. -/
def hideLoading : List Effect := [.loadingDisplay "none"]

/-- `showError(message)`. -/
def showError (message : String) : List Effect :=
  [.errorDisplay "block", .errorText message] ++ hideLoading

/-- `hideError()`. -/
def hideError : List Effect := [.errorDisplay "none"]

/-! ## displayData -/

/-- The body of `data.forEach((item, index) => html += createDataCard(item, dataType, index))`
from position `index` on, with `html` the markup built so far. -/
def appendCards (dataType : String) : Nat → List JVal → String → Except JsError String
  | _, [], html => .ok html
  | index, item :: rest, html =>
    match createDataCard item dataType index with
    | .error e => .error e
    | .ok card => appendCards dataType (index + 1) rest (html ++ card)

/-- The title `displayData` writes. -/
def dataTitleText (dataType : String) (count : Nat) : String :=
  toUpperCase (charAt0 dataType) ++ slice1 dataType ++ " (" ++ toString count ++ " items)"

/-- `displayData(data, dataType)`: the writes it makes, and whether it returns or throws. -/
def displayData (data : List JVal) (dataType : String) : List Effect × Except JsError Unit :=
  let title := Effect.titleText (dataTitleText dataType data.length)
  if data.length = 0 then
    ([title, .contentHtml "<p class=\"placeholder\">No data available.</p>"], .ok ())
  else
    match appendCards dataType 0 data "<div class=\"data-grid\">" with
    | .error e => ([title], .error e)
    | .ok html => ([title, .contentHtml (html ++ "</div>")], .ok ())

/-! ## fetchData -/

/-- What `await fetch(url)` and `await response.json()` give: the request is rejected with a
failure description, or a response arrives with a status code and a body that decodes to an
array of records or fails to decode with a description. -/
inductive FetchOutcome where
  | rejected (description : String) : FetchOutcome
  | responded (status : Nat) (body : Except String (List JVal)) : FetchOutcome

/-- `response.ok`: the status is in the range 200 to 299. -/
def responseOk (status : Nat) : Bool := 200 ≤ status && status ≤ 299

/-- The `try` block of `fetchData` after `showLoading(); hideError();`: its writes, and whether
it completes or throws. -/
def tryFetch (fetch : String → FetchOutcome) (url dataType : String) :
    List Effect × Except JsError Unit :=
  match fetch url with
  | .rejected description => ([], .error (.error description))
  | .responded status body =>
    if !responseOk status then
      ([], .error (.error ("HTTP error! status: " ++ toString status)))
    else
      match body with
      | .error description => ([], .error (.error description))
      | .ok data => displayData data dataType

/-- The `catch` block of `fetchData`. -/
def catchFetch (dataType : String) : Except JsError Unit → List Effect
  | .ok _ => []
  | .error e =>
    [.consoleError e] ++ showError ("Failed to fetch " ++ dataType ++ ": " ++ e.message)

/-- `fetchData(url, dataType)` as the trace of its writes, given the network as `fetch`. -/
def fetchData (fetch : String → FetchOutcome) (url dataType : String) : List Effect :=
  let attempt := tryFetch fetch url dataType
  showLoading ++ hideError ++ attempt.1 ++ catchFetch dataType attempt.2 ++ hideLoading

/-! ## The platform -/

/-- A value a property read can give: a JSON-decoded value, or a built-in object or function
of the platform (such as the function `Object`, which a mapping inherits as its
`constructor`), known by a name. -/
inductive Value where
  | json (value : JVal) : Value
  | native (name : String) : Value

/-- ToBoolean: every object and function is truthy. -/
def Value.truthy : Value → Bool
  | .json v => v.truthy
  | .native _ => true

/-- The UTF-16 code units of a string, the units JavaScript measures and compares strings
by. -/
def utf16 (s : String) : List Nat :=
  s.data.flatMap fun c =>
    if c.toNat < 65536 then [c.toNat]
    else [55296 + (c.toNat - 65536) / 1024, 56320 + (c.toNat - 65536) % 1024]

/-- Lower-casing of the ASCII letters, every other character left as it is. -/
def asciiLower (s : String) : String := ⟨s.data.map Char.toLower⟩

/-- What the data utilities take from the JavaScript platform.

* `toLowerCase` is `String.prototype.toLowerCase`, the Unicode lower-casing; on a string of
  ASCII characters it is the lower-casing of the ASCII letters.
* `builtinRead base key` is the read `base[key]` where `base` is not `undefined` or `null` and
  holds no own entry `key`: the built-in member of that name (an inherited method such as
  `constructor`, the `length` or a character of a string), `undefined` when there is none; an
  accessor may throw. The `length` of a string is its number of UTF-16 code units.
* `nativeText name` is what `toString()` gives on the built-in `name`, and `nativePrimitive`
  what ToPrimitive gives on it. -/
structure Platform where
  toLowerCase : String → String
  toLowerCase_ascii : ∀ s : String, (∀ c ∈ s.data, c.toNat < 128) → toLowerCase s = asciiLower s
  builtinRead : Value → String → Except JsError Value
  builtinRead_length : ∀ s : String,
    builtinRead (.json (.str s)) "length" = .ok (.json (.num (utf16 s).length))
  nativeText : String → Except JsError String
  nativePrimitive : String → Except JsError JVal

/-- The smallest platform, for evaluating the functions on examples in ASCII text: it folds
the ASCII letters and knows no built-in member but the `length` of a string. -/
def asciiPlatform : Platform where
  toLowerCase := asciiLower
  toLowerCase_ascii := fun _ _ => rfl
  builtinRead := fun base key =>
    match base with
    | .json (.str s) =>
      if key = "length" then .ok (.json (.num (utf16 s).length)) else .ok (.json .undefined)
    | _ => .ok (.json .undefined)
  builtinRead_length := fun _ => rfl
  nativeText := fun name => .ok name
  nativePrimitive := fun name => .ok (.str name)

/-! ## DataUtils.getNestedValue -/

/-- The read `base[key]`. Reading a property of `undefined` or `null` throws; a mapping
yields its own entry for the key when it holds one; every other read is the platform's. -/
def readMember (P : Platform) (base : Value) (key : String) : Except JsError Value :=
  match base with
  | .json .undefined => .error (.typeError .undefined key)
  | .json .null => .error (.typeError .null key)
  | .json (.obj fields) =>
    match findField key fields with
    | some v => .ok (.json v)
    | none => P.builtinRead base key
  | _ => P.builtinRead base key

/-- One step of the reducer `(current, key) => current && current[key]`. -/
def nestedStep (P : Platform) (current : Value) (key : String) : Except JsError Value :=
  if current.truthy then readMember P current key else .ok current

/-- A left fold with a throwing step, as `Array.prototype.reduce` runs its callback. -/
def reduceM {α β : Type} (f : β → α → Except JsError β) : β → List α → Except JsError β
  | acc, [] => .ok acc
  | acc, x :: xs =>
    match f acc x with
    | .ok acc' => reduceM f acc' xs
    | .error e => .error e

/-- `DataUtils.getNestedValue(obj, path)`:
`path.split('.').reduce((current, key) => current && current[key], obj)`. -/
def getNestedValue (P : Platform) (obj : JVal) (path : String) : Except JsError Value :=
  reduceM (nestedStep P) (.json obj) (splitDot path)

/-! ## Relational comparison -/

/-- Lexicographic `<` on code-unit sequences. -/
def ltCodeUnits : List Nat → List Nat → Bool
  | _, [] => false
  | [], _ :: _ => true
  | a :: as, b :: bs => decide (a < b) || (a == b && ltCodeUnits as bs)

/-- The characters StringToNumber strips from both ends of a string. -/
def isStrWhiteSpace (c : Char) : Bool :=
  c.toNat ∈ [9, 10, 11, 12, 13, 32, 160, 5760, 8232, 8233, 8239, 8287, 12288, 65279]
    || (8192 ≤ c.toNat && c.toNat ≤ 8202)

/-- The value of a non-empty sequence of decimal digits, or `none`. -/
def parseDigits (cs : List Char) : Option Int :=
  if cs ≠ [] ∧ cs.all Char.isDigit then
    some (cs.foldl (fun acc c => acc * 10 + ((c.toNat : Int) - 48)) 0)
  else none

/-- StringToNumber on the integers: surrounding white space is dropped, the empty string is
`0`, a decimal integer literal with an optional sign is its value, and anything else is `NaN`
(`none`). Literals denoting a number by another notation (a fraction, an exponent, a radix
prefix, `Infinity`) are outside the model; they are met only when a string is compared with
a value that is not a string. -/
def stringToNumber (s : String) : Option Int :=
  match ((s.data.dropWhile isStrWhiteSpace).reverse.dropWhile isStrWhiteSpace).reverse with
  | [] => some 0
  | '-' :: cs => (parseDigits cs).map fun n => -n
  | '+' :: cs => parseDigits cs
  | cs => parseDigits cs

/-- ToNumber of a primitive; `none` is `NaN`. -/
def JVal.toNumber : JVal → Option Int
  | .undefined => none
  | .null => some 0
  | .bool b => some (if b then 1 else 0)
  | .num n => some n
  | .str s => stringToNumber s
  | .obj _ => none

/-- The comparison `a < b` of two primitives: two strings compare by code units, any other
pair compares as numbers, and a comparison with `NaN` is false. -/
def ltPrimitive (a b : JVal) : Bool :=
  match a, b with
  | .str s, .str t => ltCodeUnits (utf16 s) (utf16 t)
  | pa, pb =>
    match pa.toNumber, pb.toNumber with
    | some m, some n => decide (m < n)
    | _, _ => false

/-- ToPrimitive, as a relational operator applies it: a primitive is itself; a mapping becomes
the string `[object Object]` through the inherited `toString` (the inherited `valueOf` gives
the mapping back), and throws a `TypeError` when an own entry named `toString` hides it; a
built-in is converted by the platform. -/
def toPrimitive (P : Platform) : Value → Except JsError JVal
  | .json (.obj fields) =>
    match findField "toString" fields with
    | some _ => .error (.cannotConvert (.obj fields))
    | none => .ok (.str "[object Object]")
  | .json v => .ok v
  | .native name => P.nativePrimitive name

/-- The relational operator `a < b`. -/
def jsLt (P : Platform) (a b : Value) : Except JsError Bool := do
  let pa ← toPrimitive P a
  let pb ← toPrimitive P b
  pure (ltPrimitive pa pb)

/-- The relational operator `a > b`: the operands are converted in the same order, and
compared the other way round. -/
def jsGt (P : Platform) (a b : Value) : Except JsError Bool := do
  let pa ← toPrimitive P a
  let pb ← toPrimitive P b
  pure (ltPrimitive pb pa)

/-! ## Array built-ins with a throwing callback -/

/-- `Array.prototype.some`: stops at the first element the callback accepts. -/
def arraySome {α : Type} (p : α → Except JsError Bool) : List α → Except JsError Bool
  | [] => .ok false
  | x :: xs =>
    match p x with
    | .ok true => .ok true
    | .ok false => arraySome p xs
    | .error e => .error e

/-- `Array.prototype.filter`: the elements the callback accepts, in order. -/
def arrayFilter {α : Type} (p : α → Except JsError Bool) : List α → Except JsError (List α)
  | [] => .ok []
  | x :: xs =>
    match p x with
    | .error e => .error e
    | .ok keep =>
      match arrayFilter p xs with
      | .error e => .error e
      | .ok rest => .ok (if keep then x :: rest else rest)

/-- The loop of the run detection: the run, held last element first, is extended by the next
element while this compares with the previous one as the direction of the run asks (below it
in a descending run, not below it otherwise); the result is the run, last element first, and
the elements after it. -/
def extendRun {α : Type} (cmp : α → α → Except JsError Int) (descending : Bool) :
    α → List α → List α → Except JsError (List α × List α)
  | _, [], run => .ok (run, [])
  | previous, current :: rest, run =>
    match cmp current previous with
    | .error e => .error e
    | .ok order =>
      if (if descending then decide (order ≥ 0) else decide (order < 0)) then
        .ok (run, current :: rest)
      else extendRun cmp descending current rest (current :: run)

/-- The run detection at the start of the array: the longest run from the first element on
that is descending (each element compares below the one before it) or is not, as the second
element compares with the first; a descending run is reversed in place. The result is the
run, now in order, and the elements after it. -/
def countAndMakeRun {α : Type} (cmp : α → α → Except JsError Int) :
    List α → Except JsError (List α × List α)
  | [] => .ok ([], [])
  | [x] => .ok ([x], [])
  | first :: second :: rest =>
    match cmp second first with
    | .error e => .error e
    | .ok order =>
      match extendRun cmp (decide (order < 0)) second rest [second, first] with
      | .error e => .error e
      | .ok (run, remaining) =>
        .ok (if order < 0 then run else run.reverse, remaining)

/-- Binary insertion of `pivot` into a segment of the sorted part: the pivot is compared with
the middle element `e` of the segment (at offset `length / 2`); when it compares below `e`
the search goes on in the elements before `e`, and otherwise in those after it; at the empty
segment the pivot is put in. `fuel` bounds the halvings and is the length of the segment. -/
def binaryInsert {α : Type} (cmp : α → α → Except JsError Int) (pivot : α) :
    Nat → List α → Except JsError (List α)
  | 0, segment => .ok (pivot :: segment)
  | fuel + 1, segment =>
    match segment.drop (segment.length / 2) with
    | [] => .ok (pivot :: segment)
    | e :: after =>
      match cmp pivot e with
      | .error err => .error err
      | .ok order =>
        if order < 0 then
          match binaryInsert cmp pivot fuel (segment.take (segment.length / 2)) with
          | .error err => .error err
          | .ok before => .ok (before ++ e :: after)
        else
          match binaryInsert cmp pivot fuel after with
          | .error err => .error err
          | .ok behind => .ok (segment.take (segment.length / 2) ++ e :: behind)

/-- Binary insertion sort: the elements of `rest`, in order, are inserted into the sorted
part. -/
def binaryInsertionSort {α : Type} (cmp : α → α → Except JsError Int) :
    List α → List α → Except JsError (List α)
  | sorted, [] => .ok sorted
  | sorted, pivot :: rest =>
    match binaryInsert cmp pivot sorted.length sorted with
    | .error e => .error e
    | .ok sorted' => binaryInsertionSort cmp sorted' rest

/-- `Array.prototype.sort(cmp)`, as V8 sorts an array shorter than 64 elements: the run at
the start of the array is detected (and reversed when it is descending), then every further
element is put into the sorted part by binary insertion. The comparator decides through the
sign of its result. A longer array V8 cuts into pieces sorted in this way and merges them; on
a comparator that is a consistent ordering of the elements every engine returns the one
stably sorted arrangement, for an array of any length, and on a comparator that is not,
ECMAScript leaves the order to the engine. -/
def arraySort {α : Type} (cmp : α → α → Except JsError Int) (data : List α) :
    Except JsError (List α) :=
  match countAndMakeRun cmp data with
  | .error e => .error e
  | .ok (run, rest) => binaryInsertionSort cmp run rest

/-! ## DataUtils.filterData and DataUtils.sortData -/

/-- The call `value.toString()` on a value that is not `undefined` or `null`: a boolean,
number or string gives its string form; a mapping gives `[object Object]` through the
inherited `toString`, and throws a `TypeError` when an own entry named `toString`, which is
not a function, hides it; a built-in gives the text the platform has for it. -/
def valueToString (P : Platform) : Value → Except JsError String
  | .json .undefined => .error (.typeError .undefined "toString")
  | .json .null => .error (.typeError .null "toString")
  | .json (.obj fields) =>
    match findField "toString" fields with
    | some _ => .error (.notCallable (.obj fields) "toString")
    | none => .ok "[object Object]"
  | .json v => v.toStr
  | .native name => P.nativeText name

/-- The callback of `fields.some` in `filterData`: `value && value.toString().toLowerCase()
.includes(searchTerm.toLowerCase())`, read as a boolean. -/
def fieldMatches (P : Platform) (item : JVal) (term : String) (field : String) :
    Except JsError Bool :=
  match getNestedValue P item field with
  | .error e => .error e
  | .ok value =>
    if value.truthy then
      match valueToString P value with
      | .error e => .error e
      | .ok text => .ok (includes (P.toLowerCase text) (P.toLowerCase term))
    else .ok false

/-- `DataUtils.filterData(data, searchTerm, fields)`. An absent search term is `none`. -/
def filterData (P : Platform) (data : List JVal) (searchTerm : Option String)
    (fields : List String) : Except JsError (List JVal) :=
  match searchTerm with
  | none => .ok data
  | some term =>
    if !(JVal.str term).truthy then .ok data
    else arrayFilter (fun item => arraySome (fieldMatches P item term) fields) data

/-- The comparator `sortData` passes to `sort`. -/
def compareByField (P : Platform) (field : String) (ascending : Bool) (a b : JVal) :
    Except JsError Int := do
  let aVal ← getNestedValue P a field
  let bVal ← getNestedValue P b field
  if ← jsLt P aVal bVal then pure (if ascending then -1 else 1)
  else if ← jsGt P aVal bVal then pure (if ascending then 1 else -1)
  else pure 0

/-- `DataUtils.sortData(data, field, ascending = true)`; the result is the sorted array. -/
def sortData (P : Platform) (data : List JVal) (field : String) (ascending : Bool := true) :
    Except JsError (List JVal) :=
  arraySort (compareByField P field ascending) data

/-! ## Notions used by the statements and their proofs -/

/-- Whether a value is `undefined` or `null`. -/
def JVal.nullish : JVal → Bool
  | .undefined => true
  | .null => true
  | _ => false

/-- Whether a value has a string form: every value but a mapping that holds an own entry
named `toString`. -/
def JVal.convertible : JVal → Bool
  | .obj fields => (findField "toString" fields).isNone
  | _ => true

/-- The value a record holds for a field, `undefined` for a field it does not hold. -/
def fieldValue (fields : List (String × JVal)) (key : String) : JVal :=
  (findField key fields).getD .undefined

/-- The value a value holds for a field when it is a mapping that holds the field, and
`undefined` otherwise. -/
def JVal.member (v : JVal) (key : String) : JVal :=
  match v with
  | .obj fields => fieldValue fields key
  | _ => .undefined

/-- The identifier a card shows for a record at an index: the `id` of the record when it
holds one that is truthy, and the index plus one otherwise. -/
def shownId (fields : List (String × JVal)) (index : Nat) : JVal :=
  match findField "id" fields with
  | some id => if id.truthy then id else .num ((index : Int) + 1)
  | none => .num ((index : Int) + 1)

/-- The opening of every card, up to and including the identifier. -/
def cardOpening (idText : String) : String :=
  "<div class=\"data-card\">" ++ ("<span class=\"id\">ID: " ++ idText ++ "</span>")

/-- The markup `displayData` writes for an empty sequence. -/
def placeholderHtml : String := "<p class=\"placeholder\">No data available.</p>"

/-- Whether a write turns the loading indicator on. -/
def isLoadingOn : Effect → Bool
  | .loadingDisplay value => value == "block"
  | _ => false

/-- Whether a write turns the loading indicator off. -/
def isLoadingOff : Effect → Bool
  | .loadingDisplay value => value == "none"
  | _ => false

/-- Whether a write is one to the title or to the content. -/
def isDataWrite : Effect → Bool
  | .titleText _ => true
  | .contentHtml _ => true
  | _ => false

/-- Where following a path ends: at the value reached after the last segment, or at a value
reached so far that holds no entry for the next segment `key`, with the segments `rest` still
to follow. -/
inductive Followed where
  | reached (value : JVal) : Followed
  | missingAt (value : JVal) (key : String) (rest : List String) : Followed

/-- Following the segments of a path, in order, through nested mappings, in the words of the
specification: a segment is missing from a mapping that holds no entry for it, and from every
value that is not a mapping. -/
def followPath : JVal → List String → Followed
  | v, [] => .reached v
  | .obj fields, key :: rest =>
    match findField key fields with
    | some v => followPath v rest
    | none => .missingAt (.obj fields) key rest
  | v, key :: rest => .missingAt v key rest

/-- The order of two comparable values: numbers by `≤`, strings lexicographically by code
unit. Values that are not both numbers or both strings are not ordered by it. -/
def valueLe : JVal → JVal → Prop
  | .num m, .num n => m ≤ n
  | .str s, .str t => utf16 s ≤ utf16 t
  | _, _ => False

/-- Whether a resolved value is absent: `undefined` or `null`. -/
def Value.absent : Value → Bool
  | .json v => v.nullish
  | .native _ => false

/-- That a computation throws nothing but a `TypeError`. -/
def OnlyTypeErrors {α : Type} (x : Except JsError α) : Prop :=
  ∀ e, x = .error e → e.isTypeError = true

/-- Whether a test returned true. -/
def passes : Except JsError Bool → Bool
  | .ok b => b
  | .error _ => false

/-- That a comparator orders the elements of a domain as a key does: on two elements of the
domain it returns, and its result is negative exactly when the key of the first is below the
key of the second. -/
def KeyedOn {α β : Type} [LT β] (cmp : α → α → Except JsError Int) (key : α → β)
    (dom : α → Prop) : Prop :=
  ∀ x y, dom x → dom y → ∃ order, cmp x y = .ok order ∧ (order < 0 ↔ key x < key y)

/-- The JSON value a field of a record resolves to, `undefined` when it resolves to none. -/
def resolvedJson (P : Platform) (field : String) (r : JVal) : JVal :=
  match getNestedValue P r field with
  | .ok (.json v) => v
  | _ => .undefined

/-- The number a number value holds. -/
def numKey : JVal → Int
  | .num n => n
  | _ => 0

/-- The code units a string value holds. -/
def strKey : JVal → List Nat
  | .str s => utf16 s
  | _ => []

/-! ## Lemmas: exceptions and property reads -/

theorem bind_ok_iff {α β : Type} (x : Except JsError α) (f : α → Except JsError β) :
    (∃ b, (x >>= f) = .ok b) ↔ ∃ a, x = .ok a ∧ ∃ b, f a = .ok b := by
  cases x <;> simp [bind, Except.bind]

theorem onlyTypeErrors_bind {α β : Type} (x : Except JsError α) (f : α → Except JsError β)
    (hx : OnlyTypeErrors x) (hf : ∀ a, OnlyTypeErrors (f a)) : OnlyTypeErrors (x >>= f) := by
  cases x with
  | error e =>
    intro e' he'
    simp only [bind, Except.bind, Except.error.injEq] at he'
    subst he'
    exact hx e rfl
  | ok a => exact hf a

theorem onlyTypeErrors_pure {α : Type} (a : α) :
    OnlyTypeErrors (pure a : Except JsError α) := by
  intro e he
  cases he

theorem lookupField_eq (key : String) (fields : List (String × JVal)) :
    lookupField key fields = fieldValue fields key := by
  unfold fieldValue
  induction fields with
  | nil => rfl
  | cons entry rest ih =>
    obtain ⟨k, v⟩ := entry
    by_cases h : k = key <;> simp [lookupField, findField, h, ih]

theorem getField_obj (fields : List (String × JVal)) (field : Field) :
    getField (.obj fields) field = .ok (fieldValue fields field.key) := by
  simp [getField, lookupField_eq]

theorem getField_of_not_nullish (base : JVal) (field : Field) (h : base.nullish = false) :
    getField base field = .ok (base.member field.key) := by
  cases base <;> simp_all [getField, JVal.nullish, JVal.member, lookupField_eq]

theorem getField_ok_iff (base : JVal) (field : Field) :
    (∃ v, getField base field = .ok v) ↔ base.nullish = false := by
  cases base <;> simp [getField, JVal.nullish]

theorem getField_onlyTypeErrors (base : JVal) (field : Field) :
    OnlyTypeErrors (getField base field) := by
  intro e he
  cases base <;> simp [getField] at he <;> subst he <;> rfl

theorem toStr_ok_iff (v : JVal) : (∃ s, v.toStr = .ok s) ↔ v.convertible = true := by
  cases v with
  | bool b => cases b <;> simp [JVal.toStr, JVal.convertible]
  | obj fields =>
    cases h : findField "toString" fields <;> simp [JVal.toStr, JVal.convertible, h]
  | _ => simp [JVal.toStr, JVal.convertible]

theorem toStr_onlyTypeErrors (v : JVal) : OnlyTypeErrors v.toStr := by
  intro e he
  cases v with
  | bool b => cases b <;> simp [JVal.toStr] at he
  | obj fields =>
    cases h : findField "toString" fields <;> simp [JVal.toStr, h] at he
    subst he
    rfl
  | _ => simp [JVal.toStr] at he

theorem substitute_onlyTypeErrors (value : Except JsError JVal) (h : OnlyTypeErrors value) :
    OnlyTypeErrors (substitute value) :=
  onlyTypeErrors_bind value _ h toStr_onlyTypeErrors

theorem getField2_onlyTypeErrors (item : JVal) (outer inner : Field) :
    OnlyTypeErrors (getField2 item outer inner) :=
  onlyTypeErrors_bind _ _ (getField_onlyTypeErrors item outer)
    (fun mid => getField_onlyTypeErrors mid inner)

theorem substitute_getField_ok_iff (fields : List (String × JVal)) (field : Field) :
    (∃ s, substitute (getField (.obj fields) field) = .ok s) ↔
      (fieldValue fields field.key).convertible = true := by
  simp only [substitute, getField_obj]
  exact toStr_ok_iff _

theorem substitute_getField2_eq (fields : List (String × JVal)) (outer inner : Field) :
    substitute (getField2 (.obj fields) outer inner) =
      substitute (getField (fieldValue fields outer.key) inner) := by
  simp [substitute, getField2, getField_obj, bind, Except.bind]

theorem substitute_ok (v : JVal) : substitute (.ok v) = v.toStr := rfl

theorem substitute_error (e : JsError) : substitute (.error e) = .error e := rfl

theorem substitute_getField2_ok_iff (fields : List (String × JVal)) (outer inner : Field) :
    (∃ s, substitute (getField2 (.obj fields) outer inner) = .ok s) ↔
      (fieldValue fields outer.key).nullish = false ∧
        ((fieldValue fields outer.key).member inner.key).convertible = true := by
  rw [substitute_getField2_eq]
  by_cases h : (fieldValue fields outer.key).nullish = false
  · rw [getField_of_not_nullish _ inner h, substitute_ok, toStr_ok_iff]
    simp [h]
  · have herr : ∃ e, getField (fieldValue fields outer.key) inner = .error e := by
      cases hv : fieldValue fields outer.key <;> simp_all [getField, JVal.nullish]
    obtain ⟨e, he⟩ := herr
    rw [he, substitute_error]
    simp [h]

theorem displayedId_obj (fields : List (String × JVal)) (index : Nat) :
    displayedId (.obj fields) index = .ok (shownId fields index) := by
  have hkey : Field.id.key = "id" := rfl
  simp only [displayedId, getField_obj, bind, Except.bind, pure, Except.pure, fieldValue,
    shownId, hkey]
  cases h : findField "id" fields <;> simp [JVal.truthy]

theorem pure_ok_exists {α : Type} (a : α) : ∃ b, (pure a : Except JsError α) = .ok b :=
  ⟨a, rfl⟩

theorem postsBody_ok_iff (fields : List (String × JVal)) :
    (∃ body, postsBody (.obj fields) = .ok body) ↔
      (fieldValue fields "title").convertible = true ∧
      (fieldValue fields "userId").convertible = true ∧
      (fieldValue fields "body").convertible = true := by
  simp only [postsBody, bind_ok_iff, pure_ok_exists, and_true, exists_and_right,
    substitute_getField_ok_iff, Field.key]

theorem commentsBody_ok_iff (fields : List (String × JVal)) :
    (∃ body, commentsBody (.obj fields) = .ok body) ↔
      (fieldValue fields "postId").convertible = true ∧
      (fieldValue fields "name").convertible = true ∧
      (fieldValue fields "email").convertible = true ∧
      (fieldValue fields "body").convertible = true := by
  simp only [commentsBody, bind_ok_iff, pure_ok_exists, and_true, exists_and_right,
    substitute_getField_ok_iff, Field.key]

theorem usersBody_ok_iff (fields : List (String × JVal)) :
    (∃ body, usersBody (.obj fields) = .ok body) ↔
      (fieldValue fields "name").convertible = true ∧
      (fieldValue fields "username").convertible = true ∧
      (fieldValue fields "email").convertible = true ∧
      (fieldValue fields "phone").convertible = true ∧
      (fieldValue fields "website").convertible = true ∧
      ((fieldValue fields "company").nullish = false ∧
        ((fieldValue fields "company").member "name").convertible = true) ∧
      ((fieldValue fields "address").nullish = false ∧
        ((fieldValue fields "address").member "street").convertible = true) ∧
      ((fieldValue fields "address").nullish = false ∧
        ((fieldValue fields "address").member "city").convertible = true) ∧
      ((fieldValue fields "address").nullish = false ∧
        ((fieldValue fields "address").member "zipcode").convertible = true) := by
  simp only [usersBody, bind_ok_iff, pure_ok_exists, and_true, exists_and_right,
    substitute_getField_ok_iff, substitute_getField2_ok_iff, Field.key]

theorem postsBody_onlyTypeErrors (item : JVal) : OnlyTypeErrors (postsBody item) := by
  unfold postsBody
  repeat' first
    | exact onlyTypeErrors_pure _
    | exact getField_onlyTypeErrors _ _
    | refine onlyTypeErrors_bind _ _ (substitute_onlyTypeErrors _ ?_) (fun _ => ?_)

theorem commentsBody_onlyTypeErrors (item : JVal) : OnlyTypeErrors (commentsBody item) := by
  unfold commentsBody
  repeat' first
    | exact onlyTypeErrors_pure _
    | exact getField_onlyTypeErrors _ _
    | refine onlyTypeErrors_bind _ _ (substitute_onlyTypeErrors _ ?_) (fun _ => ?_)

theorem usersBody_onlyTypeErrors (item : JVal) : OnlyTypeErrors (usersBody item) := by
  unfold usersBody
  repeat' first
    | exact onlyTypeErrors_pure _
    | exact getField_onlyTypeErrors _ _
    | exact getField2_onlyTypeErrors _ _ _
    | refine onlyTypeErrors_bind _ _ (substitute_onlyTypeErrors _ ?_) (fun _ => ?_)

theorem cardBody_onlyTypeErrors (item : JVal) (dataType : String) :
    OnlyTypeErrors (cardBody item dataType) := by
  unfold cardBody
  split_ifs
  · exact usersBody_onlyTypeErrors item
  · exact postsBody_onlyTypeErrors item
  · exact commentsBody_onlyTypeErrors item
  · exact onlyTypeErrors_pure _

theorem displayedId_onlyTypeErrors (item : JVal) (index : Nat) :
    OnlyTypeErrors (displayedId item index) :=
  onlyTypeErrors_bind _ _ (getField_onlyTypeErrors item .id) (fun _ => onlyTypeErrors_pure _)

theorem createDataCard_onlyTypeErrors (item : JVal) (dataType : String) (index : Nat) :
    OnlyTypeErrors (createDataCard item dataType index) := by
  unfold createDataCard
  refine onlyTypeErrors_bind _ _
    (substitute_onlyTypeErrors _ (displayedId_onlyTypeErrors item index)) (fun _ => ?_)
  exact onlyTypeErrors_bind _ _ (cardBody_onlyTypeErrors item dataType)
    (fun _ => onlyTypeErrors_pure _)

theorem createDataCard_obj (fields : List (String × JVal)) (dataType : String) (index : Nat) :
    createDataCard (.obj fields) dataType index =
      match (shownId fields index).toStr with
      | .error e => .error e
      | .ok idText =>
        match cardBody (.obj fields) dataType with
        | .ok body => .ok (cardOpening idText ++ body ++ "</div>")
        | .error e => .error e := by
  simp only [createDataCard, displayedId_obj, substitute_ok, bind, Except.bind, pure,
    Except.pure, cardOpening]
  cases (shownId fields index).toStr with
  | error e => rfl
  | ok idText => cases cardBody (.obj fields) dataType <;> rfl

theorem createDataCard_ok_iff (fields : List (String × JVal)) (dataType : String)
    (index : Nat) :
    (∃ card, createDataCard (.obj fields) dataType index = .ok card) ↔
      (shownId fields index).convertible = true ∧
        ∃ body, cardBody (.obj fields) dataType = .ok body := by
  rw [createDataCard_obj, ← toStr_ok_iff]
  cases (shownId fields index).toStr with
  | error e => simp
  | ok idText => cases cardBody (.obj fields) dataType <;> simp

/-! ## createDataCard -/

/-- C4, as the claim states it, fails: for the users record
`{id: 1, name: "A", username: "a", email: "e", phone: "p", website: "w",
address: {street: "s", city: "c", zipcode: "z"}}`, which has no `company`, the read
`item.company.name` throws a `TypeError` and no card is returned. -/
theorem createDataCard_users_without_company :
    findField "company" [("id", .num 1), ("name", .str "A"), ("username", .str "a"),
        ("email", .str "e"), ("phone", .str "p"), ("website", .str "w"),
        ("address", .obj [("street", .str "s"), ("city", .str "c"), ("zipcode", .str "z")])] =
      none ∧
    createDataCard (.obj [("id", .num 1), ("name", .str "A"), ("username", .str "a"),
        ("email", .str "e"), ("phone", .str "p"), ("website", .str "w"),
        ("address", .obj [("street", .str "s"), ("city", .str "c"), ("zipcode", .str "z")])])
      "users" 0 = .error (.typeError .undefined "name") ∧
    (JsError.typeError .undefined "name").isTypeError = true :=
  ⟨rfl, rfl, rfl⟩

/-- C4, amended: for every record and every index, `createDataCard` either returns a markup
fragment or raises a `TypeError`, and nothing else. For the data types posts and comments it
returns a fragment whichever of the fields it reads are missing (a missing field is rendered
as the text `undefined`), and raises exactly when the identifier or one of the fields it
renders is a mapping with an own `toString` entry, which has no string form. For the data
type users it returns a fragment exactly when, besides, `company` and `address` are both
present with a value other than `null`. A users record missing only `website` yields a
card. -/
theorem createDataCard_returns (fields : List (String × JVal)) (index : Nat) :
    ((∃ card, createDataCard (.obj fields) "posts" index = .ok card) ↔
      (shownId fields index).convertible = true ∧
      (fieldValue fields "title").convertible = true ∧
      (fieldValue fields "userId").convertible = true ∧
      (fieldValue fields "body").convertible = true) ∧
    ((∃ card, createDataCard (.obj fields) "comments" index = .ok card) ↔
      (shownId fields index).convertible = true ∧
      (fieldValue fields "postId").convertible = true ∧
      (fieldValue fields "name").convertible = true ∧
      (fieldValue fields "email").convertible = true ∧
      (fieldValue fields "body").convertible = true) ∧
    ((∃ card, createDataCard (.obj fields) "users" index = .ok card) ↔
      ((fieldValue fields "company").nullish = false ∧
        (fieldValue fields "address").nullish = false) ∧
      (shownId fields index).convertible = true ∧
      (fieldValue fields "name").convertible = true ∧
      (fieldValue fields "username").convertible = true ∧
      (fieldValue fields "email").convertible = true ∧
      (fieldValue fields "phone").convertible = true ∧
      (fieldValue fields "website").convertible = true ∧
      ((fieldValue fields "company").member "name").convertible = true ∧
      ((fieldValue fields "address").member "street").convertible = true ∧
      ((fieldValue fields "address").member "city").convertible = true ∧
      ((fieldValue fields "address").member "zipcode").convertible = true) ∧
    (∀ dataType e, createDataCard (.obj fields) dataType index = .error e →
      e.isTypeError = true) ∧
    createDataCard (.obj [("id", .num 1), ("name", .str "A"), ("username", .str "a"),
        ("email", .str "e"), ("phone", .str "p"), ("company", .obj [("name", .str "C")]),
        ("address", .obj [("street", .str "s"), ("city", .str "c"), ("zipcode", .str "z")])])
      "users" 0 =
      .ok ("<div class=\"data-card\"><span class=\"id\">ID: 1</span>"
        ++ "\n                <h3>A</h3>"
        ++ "\n                <p><strong>Username:</strong> a</p>"
        ++ "\n                <p><strong>Email:</strong> e</p>"
        ++ "\n                <p><strong>Phone:</strong> p</p>"
        ++ "\n                <p><strong>Website:</strong> undefined</p>"
        ++ "\n                <p><strong>Company:</strong> C</p>"
        ++ "\n                <p><strong>Address:</strong> s, c, z</p>"
        ++ "\n            </div>") := by
  refine ⟨?_, ?_, ?_, ?_, rfl⟩
  · have hcard : cardBody (.obj fields) "posts" = postsBody (.obj fields) := by
      simp [cardBody]
    rw [createDataCard_ok_iff, hcard, postsBody_ok_iff]
  · have hcard : cardBody (.obj fields) "comments" = commentsBody (.obj fields) := by
      simp [cardBody]
    rw [createDataCard_ok_iff, hcard, commentsBody_ok_iff]
  · have hcard : cardBody (.obj fields) "users" = usersBody (.obj fields) := by
      simp [cardBody]
    rw [createDataCard_ok_iff, hcard, usersBody_ok_iff]
    tauto
  · intro dataType e he
    exact createDataCard_onlyTypeErrors _ dataType index e he

/-! ### The displayed identifier -/

/-- C6, as the claim states it, fails: the posts record `{id: 0, userId: 2, title: "T",
body: "B"}` has its `id` field present, with the value `0`, and at index 0 the card displays
the identifier `1`, which is `index + 1`, not `0`. -/
theorem createDataCard_zero_id :
    findField "id" [("id", .num 0), ("userId", .num 2), ("title", .str "T"),
      ("body", .str "B")] = some (.num 0) ∧
    displayedId (.obj [("id", .num 0), ("userId", .num 2), ("title", .str "T"),
      ("body", .str "B")]) 0 = .ok (.num 1) ∧
    createDataCard (.obj [("id", .num 0), ("userId", .num 2), ("title", .str "T"),
      ("body", .str "B")]) "posts" 0 =
      .ok ("<div class=\"data-card\"><span class=\"id\">ID: 1</span>"
        ++ "\n                <h3>T</h3>"
        ++ "\n                <p><strong>User ID:</strong> 2</p>"
        ++ "\n                <p><strong>Body:</strong> B</p>"
        ++ "\n            </div>") :=
  ⟨rfl, rfl, rfl⟩

/-- C6, amended: for every record, data type and index, the identifier displayed by
`createDataCard` is the record's `id` field whenever that field is present with a truthy
value, and is `index + 1` when the `id` field is absent or holds a falsy value (`0`, the empty
string, `false`, `null`); the card, when one is returned, opens with the string form of that
identifier. The posts record `{id: 7, userId: 2, title: "T", body: "B"}` at index 0 displays
`7`. -/
theorem createDataCard_identifier (fields : List (String × JVal)) (dataType : String)
    (index : Nat) :
    displayedId (.obj fields) index =
      .ok (match findField "id" fields with
        | some id => if id.truthy then id else .num ((index : Int) + 1)
        | none => .num ((index : Int) + 1)) ∧
    createDataCard (.obj fields) dataType index =
      (match (match findField "id" fields with
          | some id => if id.truthy then id else .num ((index : Int) + 1)
          | none => .num ((index : Int) + 1)).toStr with
        | .error e => .error e
        | .ok idText =>
          match cardBody (.obj fields) dataType with
          | .ok body => .ok (cardOpening idText ++ body ++ "</div>")
          | .error e => .error e) ∧
    createDataCard (.obj [("id", .num 7), ("userId", .num 2), ("title", .str "T"),
      ("body", .str "B")]) "posts" 0 =
      .ok ("<div class=\"data-card\"><span class=\"id\">ID: 7</span>"
        ++ "\n                <h3>T</h3>"
        ++ "\n                <p><strong>User ID:</strong> 2</p>"
        ++ "\n                <p><strong>Body:</strong> B</p>"
        ++ "\n            </div>") :=
  ⟨displayedId_obj fields index, createDataCard_obj fields dataType index, rfl⟩

/-! ## displayData -/

theorem foldl_append_eq (init : String) (parts : List String) :
    parts.foldl (fun r s => r ++ s) init = init ++ String.join parts := by
  unfold String.join
  induction parts generalizing init with
  | nil => simp
  | cons x xs ih =>
    simp only [List.foldl_cons]
    rw [ih (init ++ x), ih ("" ++ x), String.empty_append, String.append_assoc]

theorem appendCards_eq (dataType : String) (start : Nat) (data : List JVal) (html : String)
    (cards : List String)
    (hcards : (data.enumFrom start).map (fun ir => createDataCard ir.2 dataType ir.1) =
      cards.map Except.ok) :
    appendCards dataType start data html = .ok (cards.foldl (fun r s => r ++ s) html) := by
  induction data generalizing start html cards with
  | nil =>
    cases cards with
    | nil => rfl
    | cons c cs => simp at hcards
  | cons item rest ih =>
    cases cards with
    | nil => simp at hcards
    | cons c cs =>
      simp only [List.enumFrom_cons, List.map_cons, List.cons.injEq] at hcards
      simp only [appendCards, hcards.1, List.foldl_cons]
      exact ih (start + 1) (html ++ c) cs hcards.2

theorem displayData_title (data : List JVal) (dataType : String) (ui : UI) :
    (UI.run ui (displayData data dataType).1).titleText =
      dataTitleText dataType data.length := by
  unfold displayData
  split
  · rfl
  · split <;> rfl

/-- C7, as the claim states it, fails: for the one-record sequence `[{}]` and the data type
users, `displayData` throws while building the card and the content is left as it was,
neither the placeholder nor a card grid. -/
theorem displayData_users_empty_record :
    (displayData [.obj []] "users").2 = .error (.typeError .undefined "name") ∧
    (UI.run ⟨"block", "none", "", "", "previous"⟩
      (displayData [.obj []] "users").1).contentHtml = "previous" :=
  ⟨rfl, rfl⟩

/-- C7, amended: `displayData` sets the content to the single placeholder message when the
sequence is empty; when it is not empty and `createDataCard(record_i, dataType, i)` returns a
card for every record (as it always does for posts and comments), `displayData` sets the
content to the card-grid wrapper enclosing the concatenation of those cards for i = 0..N-1 in
input order, one card per record and nothing else between the opening and closing tags. -/
theorem displayData_content (data : List JVal) (dataType : String) (ui : UI) :
    (data = [] → (displayData data dataType).2 = .ok () ∧
      (UI.run ui (displayData data dataType).1).contentHtml = placeholderHtml) ∧
    (∀ cards : List String, data ≠ [] →
      data.enum.map (fun ir => createDataCard ir.2 dataType ir.1) = cards.map Except.ok →
      (displayData data dataType).2 = .ok () ∧
      (UI.run ui (displayData data dataType).1).contentHtml =
        "<div class=\"data-grid\">" ++ String.join cards ++ "</div>") := by
  constructor
  · rintro rfl
    exact ⟨rfl, rfl⟩
  · intro cards hne hcards
    have hlen : ¬ data.length = 0 := fun h => hne (List.length_eq_zero.mp h)
    have happend := appendCards_eq dataType 0 data "<div class=\"data-grid\">" cards hcards
    rw [foldl_append_eq] at happend
    have hrun : displayData data dataType =
        ([.titleText (dataTitleText dataType data.length),
          .contentHtml ("<div class=\"data-grid\">" ++ String.join cards ++ "</div>")],
          .ok ()) := by
      simp only [displayData, hlen, ↓reduceIte, happend]
    rw [hrun]
    exact ⟨rfl, rfl⟩

/-- C7, amended, at an instance: the posts sequence `[{id: 7, userId: 2, title: "T",
body: "B"}, {userId: 3, title: "U", body: "C"}]` gives a grid holding the two cards in input
order, the second with the identifier of its index. -/
theorem displayData_content_witness :
    ([JVal.obj [("id", .num 7), ("userId", .num 2), ("title", .str "T"), ("body", .str "B")],
      .obj [("userId", .num 3), ("title", .str "U"), ("body", .str "C")]] ≠ []) ∧
    (displayData [.obj [("id", .num 7), ("userId", .num 2), ("title", .str "T"),
      ("body", .str "B")], .obj [("userId", .num 3), ("title", .str "U"), ("body", .str "C")]]
      "posts").2 = .ok () ∧
    (UI.run ⟨"block", "none", "", "", "previous"⟩
      (displayData [.obj [("id", .num 7), ("userId", .num 2), ("title", .str "T"),
        ("body", .str "B")], .obj [("userId", .num 3), ("title", .str "U"),
        ("body", .str "C")]] "posts").1).contentHtml =
      "<div class=\"data-grid\">" ++ String.join
        ["<div class=\"data-card\"><span class=\"id\">ID: 7</span>"
          ++ "\n                <h3>T</h3>"
          ++ "\n                <p><strong>User ID:</strong> 2</p>"
          ++ "\n                <p><strong>Body:</strong> B</p>"
          ++ "\n            </div>",
         "<div class=\"data-card\"><span class=\"id\">ID: 2</span>"
          ++ "\n                <h3>U</h3>"
          ++ "\n                <p><strong>User ID:</strong> 3</p>"
          ++ "\n                <p><strong>Body:</strong> C</p>"
          ++ "\n            </div>"] ++ "</div>" :=
  ⟨by simp,
    (displayData_content [.obj [("id", .num 7), ("userId", .num 2), ("title", .str "T"),
      ("body", .str "B")], .obj [("userId", .num 3), ("title", .str "U"), ("body", .str "C")]]
      "posts" ⟨"block", "none", "", "", "previous"⟩).2 _ (by simp) rfl⟩

/-- C8: for each of the data types users, posts and comments and every N-element sequence of
records, `displayData` sets the title to the data type name with its first letter upper-cased,
followed by `" ("`, the decimal count N and `" items)"`; a one-record posts sequence gives
`"Posts (1 items)"`. -/
theorem displayData_title_text (data : List JVal) (ui : UI) :
    (UI.run ui (displayData data "users").1).titleText =
      "Users (" ++ toString data.length ++ " items)" ∧
    (UI.run ui (displayData data "posts").1).titleText =
      "Posts (" ++ toString data.length ++ " items)" ∧
    (UI.run ui (displayData data "comments").1).titleText =
      "Comments (" ++ toString data.length ++ " items)" ∧
    (UI.run ui (displayData [.obj [("id", .num 7), ("userId", .num 2), ("title", .str "T"),
      ("body", .str "B")]] "posts").1).titleText = "Posts (1 items)" := by
  have husers : toUpperCase (charAt0 "users") ++ slice1 "users" ++ " (" = "Users (" := by
    decide
  have hposts : toUpperCase (charAt0 "posts") ++ slice1 "posts" ++ " (" = "Posts (" := by
    decide
  have hcomments :
      toUpperCase (charAt0 "comments") ++ slice1 "comments" ++ " (" = "Comments (" := by
    decide
  refine ⟨?_, ?_, ?_, rfl⟩
  · rw [displayData_title, dataTitleText, husers]
  · rw [displayData_title, dataTitleText, hposts]
  · rw [displayData_title, dataTitleText, hcomments]

/-! ## fetchData -/

theorem displayData_writes (data : List JVal) (dataType : String) :
    ∀ e ∈ (displayData data dataType).1, isDataWrite e = true := by
  unfold displayData
  split
  · simp [isDataWrite]
  · split <;> simp [isDataWrite]

theorem tryFetch_writes (fetch : String → FetchOutcome) (url dataType : String) :
    ∀ e ∈ (tryFetch fetch url dataType).1, isDataWrite e = true := by
  unfold tryFetch
  split
  · simp
  · split
    · simp
    · split
      · simp
      · exact displayData_writes _ _

theorem countP_dataWrites (p : Effect → Bool) (hp : ∀ e, p e = true → isDataWrite e = false)
    (trace : List Effect) (htrace : ∀ e ∈ trace, isDataWrite e = true) :
    trace.countP p = 0 := by
  rw [List.countP_eq_zero]
  intro e he hpe
  have h1 := htrace e he
  have h2 := hp e hpe
  rw [h1] at h2
  cases h2

theorem isLoadingOff_not_data (e : Effect) (h : isLoadingOff e = true) :
    isDataWrite e = false := by
  cases e <;> simp_all [isLoadingOff, isDataWrite]

theorem isLoadingOn_not_data (e : Effect) (h : isLoadingOn e = true) :
    isDataWrite e = false := by
  cases e <;> simp_all [isLoadingOn, isDataWrite]

theorem fetchData_off_count (fetch : String → FetchOutcome) (url dataType : String) :
    (fetchData fetch url dataType).countP isLoadingOff =
      match (tryFetch fetch url dataType).2 with
      | .ok _ => 1
      | .error _ => 2 := by
  have htry := countP_dataWrites isLoadingOff isLoadingOff_not_data _
    (tryFetch_writes fetch url dataType)
  simp only [fetchData, List.countP_append, htry]
  cases (tryFetch fetch url dataType).2 <;> rfl

theorem fetchData_of_error (fetch : String → FetchOutcome) (url dataType : String)
    (e : JsError) (htry : tryFetch fetch url dataType = ([], .error e)) :
    fetchData fetch url dataType =
      [.loadingDisplay "block", .errorDisplay "none", .errorDisplay "none", .consoleError e,
        .errorDisplay "block", .errorText ("Failed to fetch " ++ dataType ++ ": " ++ e.message),
        .loadingDisplay "none", .loadingDisplay "none"] := by
  simp [fetchData, htry, showLoading, hideError, catchFetch, showError, hideLoading]

theorem responseOk_iff (status : Nat) :
    responseOk status = true ↔ 200 ≤ status ∧ status ≤ 299 := by
  simp [responseOk]

theorem tryFetch_bad_status (fetch : String → FetchOutcome) (url dataType : String)
    (status : Nat) (body : Except String (List JVal))
    (hfetch : fetch url = .responded status body) (hstatus : responseOk status = false) :
    tryFetch fetch url dataType =
      ([], .error (.error ("HTTP error! status: " ++ toString status))) := by
  simp [tryFetch, hfetch, hstatus]

theorem tryFetch_rejected (fetch : String → FetchOutcome) (url dataType : String)
    (description : String) (hfetch : fetch url = .rejected description) :
    tryFetch fetch url dataType = ([], .error (.error description)) := by
  simp [tryFetch, hfetch]

/-- C9: for every URL, data type and response whose status is not a success status (404 in
particular), `fetchData` ends with the error region shown, the error message containing the
decimal status code, and the loading indicator off; and a transport failure ends with the
error region shown, the message containing the description of the failure, and the loading
indicator off. -/
theorem fetchData_failure_state (fetch : String → FetchOutcome) (url dataType : String)
    (ui : UI) :
    (∀ status body, fetch url = .responded status body → ¬ (200 ≤ status ∧ status ≤ 299) →
      (UI.run ui (fetchData fetch url dataType)).errorDisplay = "block" ∧
      (UI.run ui (fetchData fetch url dataType)).errorText =
        "Failed to fetch " ++ dataType ++ ": " ++ ("HTTP error! status: " ++ toString status) ∧
      (∃ pre post : String, (UI.run ui (fetchData fetch url dataType)).errorText =
        pre ++ toString status ++ post) ∧
      (UI.run ui (fetchData fetch url dataType)).loadingDisplay = "none") ∧
    (∀ description, fetch url = .rejected description →
      (UI.run ui (fetchData fetch url dataType)).errorDisplay = "block" ∧
      (UI.run ui (fetchData fetch url dataType)).errorText =
        "Failed to fetch " ++ dataType ++ ": " ++ description ∧
      (∃ pre post : String, (UI.run ui (fetchData fetch url dataType)).errorText =
        pre ++ description ++ post) ∧
      (UI.run ui (fetchData fetch url dataType)).loadingDisplay = "none") := by
  constructor
  · intro status body hfetch hstatus
    have hok : responseOk status = false := by
      rw [← Bool.not_eq_true, responseOk_iff]
      exact hstatus
    rw [fetchData_of_error fetch url dataType _
      (tryFetch_bad_status fetch url dataType status body hfetch hok)]
    refine ⟨rfl, rfl, ⟨"Failed to fetch " ++ dataType ++ ": " ++ "HTTP error! status: ", "", ?_⟩,
      rfl⟩
    show "Failed to fetch " ++ dataType ++ ": " ++ ("HTTP error! status: " ++ toString status) = _
    simp only [String.append_assoc, String.append_empty]
  · intro description hfetch
    rw [fetchData_of_error fetch url dataType _
      (tryFetch_rejected fetch url dataType description hfetch)]
    refine ⟨rfl, rfl, ⟨"Failed to fetch " ++ dataType ++ ": ", "", ?_⟩, rfl⟩
    show "Failed to fetch " ++ dataType ++ ": " ++ description = _
    simp only [String.append_empty]

/-- C9 at an instance: a 404 response to a posts request leaves the error region shown with
the message `Failed to fetch posts: HTTP error! status: 404` and the loading indicator off. -/
theorem fetchData_failure_state_witness :
    ¬ (200 ≤ 404 ∧ 404 ≤ 299) ∧
    (UI.run ⟨"none", "none", "", "", ""⟩ (fetchData (fun _ => .responded 404 (.ok []))
      "https://jsonplaceholder.typicode.com/posts" "posts")).errorDisplay = "block" ∧
    (UI.run ⟨"none", "none", "", "", ""⟩ (fetchData (fun _ => .responded 404 (.ok []))
      "https://jsonplaceholder.typicode.com/posts" "posts")).errorText =
        "Failed to fetch " ++ "posts" ++ ": " ++ ("HTTP error! status: " ++ toString 404) ∧
    (∃ pre post : String, (UI.run ⟨"none", "none", "", "", ""⟩
      (fetchData (fun _ => .responded 404 (.ok []))
        "https://jsonplaceholder.typicode.com/posts" "posts")).errorText =
        pre ++ toString 404 ++ post) ∧
    (UI.run ⟨"none", "none", "", "", ""⟩ (fetchData (fun _ => .responded 404 (.ok []))
      "https://jsonplaceholder.typicode.com/posts" "posts")).loadingDisplay = "none" :=
  ⟨by decide,
    (fetchData_failure_state (fun _ => .responded 404 (.ok []))
      "https://jsonplaceholder.typicode.com/posts" "posts" ⟨"none", "none", "", "", ""⟩).1
      404 (.ok []) rfl (by decide)⟩

/-- C10, as the claim states it, fails: on a 404 response the trace of `fetchData` turns the
loading indicator off twice, once in `showError` and once in the `finally` block. -/
theorem fetchData_not_found_hides_twice :
    fetchData (fun _ => .responded 404 (.ok []))
        "https://jsonplaceholder.typicode.com/posts" "posts" =
      [.loadingDisplay "block", .errorDisplay "none", .errorDisplay "none",
        .consoleError (.error "HTTP error! status: 404"), .errorDisplay "block",
        .errorText "Failed to fetch posts: HTTP error! status: 404",
        .loadingDisplay "none", .loadingDisplay "none"] ∧
    (fetchData (fun _ => .responded 404 (.ok []))
      "https://jsonplaceholder.typicode.com/posts" "posts").countP isLoadingOff = 2 :=
  ⟨rfl, rfl⟩

/-- C10, amended: for every invocation of `fetchData` and every outcome of the request, the
first write turns the loading indicator on, it is turned on only that once, the last write
turns it off, and it is off in the final state; it is turned off exactly once when the request
succeeds, decodes and renders, and twice (by `showError`, then by the `finally` block) on a
transport failure, a non-success status, a decode failure and a failure while rendering. -/
theorem fetchData_loading_trace (fetch : String → FetchOutcome) (url dataType : String) :
    (fetchData fetch url dataType).head? = some (.loadingDisplay "block") ∧
    (fetchData fetch url dataType).getLast? = some (.loadingDisplay "none") ∧
    (fetchData fetch url dataType).countP isLoadingOn = 1 ∧
    (∀ ui, (UI.run ui (fetchData fetch url dataType)).loadingDisplay = "none") ∧
    (∀ status data, fetch url = .responded status (.ok data) → responseOk status = true →
      (displayData data dataType).2 = .ok () →
      (fetchData fetch url dataType).countP isLoadingOff = 1) ∧
    (∀ status data e, fetch url = .responded status (.ok data) → responseOk status = true →
      (displayData data dataType).2 = .error e →
      (fetchData fetch url dataType).countP isLoadingOff = 2) ∧
    (∀ description, fetch url = .rejected description →
      (fetchData fetch url dataType).countP isLoadingOff = 2) ∧
    (∀ status body, fetch url = .responded status body → responseOk status = false →
      (fetchData fetch url dataType).countP isLoadingOff = 2) ∧
    (∀ status description, fetch url = .responded status (.error description) →
      (fetchData fetch url dataType).countP isLoadingOff = 2) := by
  have hon := countP_dataWrites isLoadingOn isLoadingOn_not_data _
    (tryFetch_writes fetch url dataType)
  refine ⟨?_, ?_, ?_, ?_, ?_, ?_, ?_, ?_, ?_⟩
  · simp [fetchData, showLoading]
  · simp [fetchData, hideLoading]
  · simp only [fetchData, List.countP_append, hon]
    cases (tryFetch fetch url dataType).2 <;> rfl
  · intro ui
    simp [fetchData, hideLoading, UI.run, List.foldl_append, UI.apply]
  · intro status data hfetch hok hrender
    rw [fetchData_off_count]
    simp [tryFetch, hfetch, hok, hrender]
  · intro status data e hfetch hok hrender
    rw [fetchData_off_count]
    simp [tryFetch, hfetch, hok, hrender]
  · intro description hfetch
    rw [fetchData_off_count, tryFetch_rejected fetch url dataType description hfetch]
  · intro status body hfetch hok
    rw [fetchData_off_count, tryFetch_bad_status fetch url dataType status body hfetch hok]
  · intro status description hfetch
    rw [fetchData_off_count]
    cases hok : responseOk status <;> simp [tryFetch, hfetch, hok]

/-- C10, amended, at an instance: a 200 response carrying one post turns the loading
indicator off once. -/
theorem fetchData_loading_trace_witness :
    responseOk 200 = true ∧
    (displayData [.obj [("id", .num 7), ("userId", .num 2), ("title", .str "T"),
      ("body", .str "B")]] "posts").2 = .ok () ∧
    (fetchData (fun _ => .responded 200 (.ok [.obj [("id", .num 7), ("userId", .num 2),
        ("title", .str "T"), ("body", .str "B")]]))
      "https://jsonplaceholder.typicode.com/posts" "posts").countP isLoadingOff = 1 :=
  ⟨by decide, rfl,
    (fetchData_loading_trace (fun _ => .responded 200 (.ok [.obj [("id", .num 7),
        ("userId", .num 2), ("title", .str "T"), ("body", .str "B")]]))
      "https://jsonplaceholder.typicode.com/posts" "posts").2.2.2.2.1 200 _ rfl (by decide)
      rfl⟩

/-! ## Lemmas: getNestedValue -/

theorem nestedStep_falsy (P : Platform) (current : Value) (key : String)
    (h : current.truthy = false) : nestedStep P current key = .ok current := by
  simp [nestedStep, h]

theorem reduceM_falsy (P : Platform) (current : Value) (h : current.truthy = false)
    (segments : List String) : reduceM (nestedStep P) current segments = .ok current := by
  induction segments with
  | nil => rfl
  | cons key rest ih => simp [reduceM, nestedStep_falsy P current key h, ih]

theorem nestedStep_entry (P : Platform) (fields : List (String × JVal)) (key : String)
    (v : JVal) (h : findField key fields = some v) :
    nestedStep P (.json (.obj fields)) key = .ok (.json v) := by
  simp [nestedStep, Value.truthy, JVal.truthy, readMember, h]

theorem nestedStep_builtin (P : Platform) (u : JVal) (key : String)
    (htruthy : u.truthy = true)
    (hmissing : ∀ fields, u = .obj fields → findField key fields = none) :
    nestedStep P (.json u) key = P.builtinRead (.json u) key := by
  cases u with
  | obj fields => simp [nestedStep, Value.truthy, JVal.truthy, readMember, hmissing fields rfl]
  | undefined => simp [JVal.truthy] at htruthy
  | null => simp [JVal.truthy] at htruthy
  | bool b => simp [nestedStep, Value.truthy, htruthy, readMember]
  | num n => simp [nestedStep, Value.truthy, htruthy, readMember]
  | str s => simp [nestedStep, Value.truthy, htruthy, readMember]

theorem reduceM_cons {α β : Type} (f : β → α → Except JsError β) (acc : β) (x : α)
    (xs : List α) :
    reduceM f acc (x :: xs) =
      match f acc x with
      | .ok acc' => reduceM f acc' xs
      | .error e => .error e := rfl

theorem reduceM_followPath (P : Platform) (obj : JVal) (segments : List String) :
    reduceM (nestedStep P) (.json obj) segments =
      match followPath obj segments with
      | .reached v => .ok (.json v)
      | .missingAt u key rest =>
        if u.truthy then
          match P.builtinRead (.json u) key with
          | .ok member => reduceM (nestedStep P) member rest
          | .error e => .error e
        else .ok (.json u) := by
  induction segments generalizing obj with
  | nil => cases obj <;> rfl
  | cons key rest ih =>
    by_cases htruthy : obj.truthy = true
    · cases hobj : obj with
      | obj fields =>
        cases hfind : findField key fields with
        | some v =>
          rw [reduceM_cons, nestedStep_entry P fields key v hfind]
          simp only [followPath, hfind]
          exact ih v
        | none =>
          rw [reduceM_cons, nestedStep_builtin P (.obj fields) key rfl
            (fun fs hfs => by cases hfs; exact hfind)]
          cases hread : P.builtinRead (.json (.obj fields)) key <;>
            simp [followPath, hfind, JVal.truthy, hread]
      | undefined => simp [hobj, JVal.truthy] at htruthy
      | null => simp [hobj, JVal.truthy] at htruthy
      | bool b =>
        subst hobj
        rw [reduceM_cons, nestedStep_builtin P _ key htruthy (fun fs hfs => by cases hfs)]
        cases hread : P.builtinRead (.json (.bool b)) key <;> simp [followPath, htruthy, hread]
      | num n =>
        subst hobj
        rw [reduceM_cons, nestedStep_builtin P _ key htruthy (fun fs hfs => by cases hfs)]
        cases hread : P.builtinRead (.json (.num n)) key <;> simp [followPath, htruthy, hread]
      | str s =>
        subst hobj
        rw [reduceM_cons, nestedStep_builtin P _ key htruthy (fun fs hfs => by cases hfs)]
        cases hread : P.builtinRead (.json (.str s)) key <;> simp [followPath, htruthy, hread]
    · have hfalse : obj.truthy = false := by simpa using htruthy
      have hfollow : followPath obj (key :: rest) = .missingAt obj key rest := by
        cases obj <;> simp_all [followPath, JVal.truthy]
      rw [reduceM_falsy P (.json obj) hfalse, hfollow]
      simp [hfalse]

/-! ## DataUtils.getNestedValue: the path it follows -/

/-- C5, as the claim states it, fails: in the record `{a: 0}` the segment `b` of the path
`a.b` is missing from the value `0` reached so far, and `getNestedValue` returns that `0`, a
present value, where the claim has it return an absent one. No member of the platform is
consulted on the way. -/
theorem getNestedValue_zero_intermediate :
    followPath (.obj [("a", .num 0)]) (splitDot "a.b") = .missingAt (.num 0) "b" [] ∧
      getNestedValue asciiPlatform (.obj [("a", .num 0)]) "a.b" = .ok (.json (.num 0)) ∧
      (Value.json (.num 0)).absent = false :=
  ⟨rfl, rfl, rfl⟩

/-- C5, amended: for every record and every dotted path, on every platform: when every
segment of the path is present as an entry of the mapping reached so far, `getNestedValue`
returns the value reached by following the segments in order through the nested mappings.
When a segment is missing from the value reached so far, it returns that value itself if it
is falsy (`undefined`, `null`, `false`, `0`, the empty string); if that value is truthy, the
segment is read as a built-in member of it and the remaining segments are followed from what
that read gives, so that the result is `undefined` when the value has no built-in member of
that name, whatever segments remain. -/
theorem getNestedValue_follows_path (P : Platform) (obj : JVal) (path : String) :
    (∀ v, followPath obj (splitDot path) = .reached v →
      getNestedValue P obj path = .ok (.json v)) ∧
    (∀ u key rest, followPath obj (splitDot path) = .missingAt u key rest →
      u.truthy = false → getNestedValue P obj path = .ok (.json u)) ∧
    (∀ u key rest, followPath obj (splitDot path) = .missingAt u key rest →
      u.truthy = true →
      getNestedValue P obj path =
        match P.builtinRead (.json u) key with
        | .ok member => reduceM (nestedStep P) member rest
        | .error e => .error e) ∧
    (∀ u key rest, followPath obj (splitDot path) = .missingAt u key rest →
      u.truthy = true → P.builtinRead (.json u) key = .ok (.json .undefined) →
      getNestedValue P obj path = .ok (.json .undefined)) := by
  have hmain := reduceM_followPath P obj (splitDot path)
  refine ⟨?_, ?_, ?_, ?_⟩
  · intro v hv
    rw [getNestedValue, hmain, hv]
  · intro u key rest hfollow hfalsy
    rw [getNestedValue, hmain, hfollow]
    simp [hfalsy]
  · intro u key rest hfollow htruthy
    rw [getNestedValue, hmain, hfollow]
    cases hread : P.builtinRead (.json u) key <;> simp [htruthy, hread]
  · intro u key rest hfollow htruthy hread
    rw [getNestedValue, hmain, hfollow]
    simp only [htruthy, ↓reduceIte, hread]
    exact reduceM_falsy P (.json .undefined) rfl rest

/-- C5, amended, at instances: in `{a: {b: 1}}` the path `a.b` reaches `1`; the path `a.c.d`
finds `c` missing from the mapping `{b: 1}`, which has no built-in member `c`, and gives
`undefined`; and in `{a: "abc"}` the path `a.length` gives `3`, the built-in length of the
string, on every platform. -/
theorem getNestedValue_follows_path_witness :
    getNestedValue asciiPlatform (.obj [("a", .obj [("b", .num 1)])]) "a.b" =
      .ok (.json (.num 1)) ∧
    getNestedValue asciiPlatform (.obj [("a", .obj [("b", .num 1)])]) "a.c.d" =
      .ok (.json .undefined) ∧
    ∀ P : Platform, getNestedValue P (.obj [("a", .str "abc")]) "a.length" =
      .ok (.json (.num 3)) :=
  ⟨(getNestedValue_follows_path asciiPlatform (.obj [("a", .obj [("b", .num 1)])]) "a.b").1
      (.num 1) rfl,
    (getNestedValue_follows_path asciiPlatform (.obj [("a", .obj [("b", .num 1)])])
      "a.c.d").2.2.2 (.obj [("b", .num 1)]) "c" ["d"] rfl rfl rfl,
    fun P => by
      rw [(getNestedValue_follows_path P (.obj [("a", .str "abc")]) "a.length").2.2.1
        (.str "abc") "length" [] rfl rfl, P.builtinRead_length]
      rfl⟩

/-! ## Lemmas: strings and array built-ins -/

theorem startsWithChars_iff (s t : List Char) :
    startsWithChars s t = true ↔ ∃ post, s = t ++ post := by
  induction t generalizing s with
  | nil => simp [startsWithChars]
  | cons d t ih =>
    cases s with
    | nil => simp [startsWithChars]
    | cons c s =>
      simp only [startsWithChars, Bool.and_eq_true, beq_iff_eq, ih, List.cons_append,
        List.cons.injEq]
      constructor
      · rintro ⟨hcd, post, hpost⟩
        exact ⟨post, hcd, hpost⟩
      · rintro ⟨post, hcd, hpost⟩
        exact ⟨hcd, post, hpost⟩

theorem includesChars_iff (s t : List Char) :
    includesChars s t = true ↔ ∃ pre post, s = pre ++ t ++ post := by
  induction s with
  | nil =>
    simp only [includesChars, startsWithChars_iff]
    constructor
    · rintro ⟨post, h⟩
      exact ⟨[], post, by simpa using h⟩
    · rintro ⟨pre, post, h⟩
      have h1 : pre ++ t ++ post = [] := h.symm
      simp only [List.append_eq_nil] at h1
      exact ⟨[], by simp [h1.1.2]⟩
  | cons c s ih =>
    simp only [includesChars, Bool.or_eq_true, startsWithChars_iff, ih]
    constructor
    · rintro (⟨post, h⟩ | ⟨pre, post, h⟩)
      · exact ⟨[], post, by simpa using h⟩
      · exact ⟨c :: pre, post, by simp [h]⟩
    · rintro ⟨pre, post, h⟩
      cases pre with
      | nil => exact Or.inl ⟨post, by simpa using h⟩
      | cons p pre =>
        simp only [List.cons_append, List.cons.injEq] at h
        exact Or.inr ⟨pre, post, h.2⟩

theorem includes_iff (s t : String) :
    includes s t = true ↔ ∃ pre post : String, s = pre ++ t ++ post := by
  unfold includes
  rw [includesChars_iff]
  constructor
  · rintro ⟨pre, post, h⟩
    exact ⟨⟨pre⟩, ⟨post⟩, String.ext (by simpa using h)⟩
  · rintro ⟨pre, post, h⟩
    exact ⟨pre.data, post.data, by simp [h]⟩

theorem arraySome_eq {α : Type} (p : α → Except JsError Bool) (q : α → Bool) (l : List α)
    (hp : ∀ x ∈ l, p x = .ok (q x)) : arraySome p l = .ok (l.any q) := by
  induction l with
  | nil => rfl
  | cons x xs ih =>
    have hx := hp x (List.mem_cons_self x xs)
    have hxs := ih (fun y hy => hp y (List.mem_cons_of_mem x hy))
    cases hq : q x <;> simp [arraySome, hx, hq, hxs]

theorem arrayFilter_eq {α : Type} (p : α → Except JsError Bool) (q : α → Bool) (l : List α)
    (hp : ∀ x ∈ l, p x = .ok (q x)) : arrayFilter p l = .ok (l.filter q) := by
  induction l with
  | nil => rfl
  | cons x xs ih =>
    have hx := hp x (List.mem_cons_self x xs)
    have hxs := ih (fun y hy => hp y (List.mem_cons_of_mem x hy))
    cases hq : q x <;> simp [arrayFilter, hx, hq, hxs]

theorem fieldMatches_eq_true_iff (P : Platform) (item : JVal) (term field : String) :
    fieldMatches P item term field = .ok true ↔
      ∃ v text, getNestedValue P item field = .ok v ∧ v.truthy = true ∧
        valueToString P v = .ok text ∧
        ∃ pre post : String, P.toLowerCase text = pre ++ P.toLowerCase term ++ post := by
  unfold fieldMatches
  cases hv : getNestedValue P item field with
  | error e => simp
  | ok v =>
    by_cases htruthy : v.truthy = true
    · cases htext : valueToString P v with
      | error e => simp [htruthy, htext]
      | ok text => simp [htruthy, htext, includes_iff]
    · simp [htruthy]

theorem fieldMatches_returns (P : Platform) (item : JVal) (term field : String)
    (h : ∃ v, getNestedValue P item field = .ok v ∧
      (v.truthy = true → ∃ text, valueToString P v = .ok text)) :
    ∃ b, fieldMatches P item term field = .ok b := by
  obtain ⟨v, hv, htext⟩ := h
  unfold fieldMatches
  by_cases htruthy : v.truthy = true
  · obtain ⟨text, ht⟩ := htext htruthy
    simp [hv, htruthy, ht]
  · simp [hv, htruthy]

theorem passes_iff (x : Except JsError Bool) : passes x = true ↔ x = .ok true := by
  cases x with
  | error e => simp [passes]
  | ok b => cases b <;> simp [passes]

/-! ## DataUtils.filterData -/

/-- C1, as the claim states it, fails: the record `{n: 0}` has the field `n` resolving to the
present value `0`, whose string form `"0"` contains the term `"0"`, and `filterData` does not
return the record. No member of the platform decides it: the test stops at the falsy value. -/
theorem filterData_drops_zero_value :
    getNestedValue asciiPlatform (.obj [("n", .num 0)]) "n" = .ok (.json (.num 0)) ∧
      valueToString asciiPlatform (.json (.num 0)) = .ok "0" ∧
      includes "0" "0" = true ∧
      filterData asciiPlatform [.obj [("n", .num 0)]] (some "0") ["n"] = .ok [] :=
  ⟨rfl, rfl, rfl, rfl⟩

/-- C1, amended: on every platform, `filterData` returns the input sequence unchanged when the
term is absent or empty. Otherwise, provided every listed field of every record resolves
through `getNestedValue`, without raising, to a value that is falsy or has a string form
(`value.toString()` raises on a mapping with an own `toString` entry), it returns exactly
those records, in input order, for which at least one of the listed fields resolves to a
truthy value (present, and not `0`, `false`, `null` or the empty string) whose string form
contains the term once both are lower-cased by `toLowerCase`; a record whose listed fields are
all absent is never returned. Filtering `[{name: "Leanne Graham"}]` on `name` with the term
`"leanne"` returns the record. -/
theorem filterData_keeps_truthy_matches (P : Platform) (data : List JVal)
    (fields : List String) :
    filterData P data none fields = .ok data ∧
    filterData P data (some "") fields = .ok data ∧
    (∀ term : String, term ≠ "" →
      (∀ r ∈ data, ∀ f ∈ fields, ∃ v, getNestedValue P r f = .ok v ∧
        (v.truthy = true → ∃ text, valueToString P v = .ok text)) →
      ∃ kept : List JVal, filterData P data (some term) fields = .ok kept ∧
        (∃ keep : JVal → Bool, kept = data.filter keep ∧
          ∀ r, keep r = true ↔ ∃ f ∈ fields, ∃ v text, getNestedValue P r f = .ok v ∧
            v.truthy = true ∧ valueToString P v = .ok text ∧
            ∃ pre post : String, P.toLowerCase text = pre ++ P.toLowerCase term ++ post) ∧
        (∀ r, (∀ f ∈ fields, ∃ v, getNestedValue P r f = .ok v ∧ v.absent = true) →
          r ∉ kept)) ∧
    filterData P [.obj [("name", .str "Leanne Graham")]] (some "leanne") ["name"] =
      .ok [.obj [("name", .str "Leanne Graham")]] := by
  have hkeep : ∀ (term : String) (r : JVal),
      (fields.any fun f => passes (fieldMatches P r term f)) = true ↔
        ∃ f ∈ fields, ∃ v text, getNestedValue P r f = .ok v ∧
          v.truthy = true ∧ valueToString P v = .ok text ∧
          ∃ pre post : String, P.toLowerCase text = pre ++ P.toLowerCase term ++ post := by
    intro term r
    simp only [List.any_eq_true, passes_iff, fieldMatches_eq_true_iff]
  refine ⟨rfl, rfl, ?_, ?_⟩
  · intro term hterm hresolves
    have hdata : term.data ≠ [] := fun h => hterm (String.ext (by simpa using h))
    have htruthy : (JVal.str term).truthy = true := by simp [JVal.truthy, hdata]
    have hfield : ∀ r ∈ data, ∀ f ∈ fields, fieldMatches P r term f =
        .ok (passes (fieldMatches P r term f)) := by
      intro r hr f hf
      obtain ⟨b, hb⟩ := fieldMatches_returns P r term f (hresolves r hr f hf)
      cases b <;> simp [hb, passes]
    have hfilter : filterData P data (some term) fields =
        .ok (data.filter fun r =>
          fields.any fun f => passes (fieldMatches P r term f)) := by
      simp only [filterData, htruthy, Bool.not_true, Bool.false_eq_true, ↓reduceIte]
      exact arrayFilter_eq _ _ data
        (fun r hr => arraySome_eq _ _ fields (fun f hf => hfield r hr f hf))
    refine ⟨_, hfilter, ⟨_, rfl, hkeep term⟩, ?_⟩
    intro r habsent hmem
    have hkept := (List.mem_filter.mp hmem).2
    obtain ⟨f, hf, v, text, hv, hvtruthy, -, -⟩ := (hkeep term r).mp hkept
    obtain ⟨w, hw, hwabsent⟩ := habsent f hf
    rw [hv] at hw
    cases hw
    cases v with
    | native name => simp [Value.absent] at hwabsent
    | json j => cases j <;> simp_all [Value.absent, JVal.nullish, Value.truthy, JVal.truthy]
  · have hname : P.toLowerCase "Leanne Graham" = "leanne graham" := by
      rw [P.toLowerCase_ascii "Leanne Graham" (by decide)]
      decide
    have hterm : P.toLowerCase "leanne" = "leanne" := by
      rw [P.toLowerCase_ascii "leanne" (by decide)]
      decide
    have hvalue : getNestedValue P (.obj [("name", .str "Leanne Graham")]) "name" =
        .ok (.json (.str "Leanne Graham")) := rfl
    have hmatch : fieldMatches P (.obj [("name", .str "Leanne Graham")]) "leanne" "name" =
        .ok true := by
      have hincludes : includes "leanne graham" "leanne" = true := by decide
      simp only [fieldMatches, hvalue, Value.truthy, JVal.truthy, valueToString, JVal.toStr,
        hname, hterm, hincludes]
      rfl
    simp [filterData, JVal.truthy, arrayFilter, arraySome, hmatch]

/-- C1, amended, at an instance: filtering `[{n: 7}, {n: 0}]` on `n` with the term `"7"`. -/
theorem filterData_keeps_truthy_matches_witness :
    ("7" : String) ≠ "" ∧
    (∀ r ∈ [JVal.obj [("n", .num 7)], .obj [("n", .num 0)]], ∀ f ∈ ["n"],
      ∃ v, getNestedValue asciiPlatform r f = .ok v ∧
        (v.truthy = true → ∃ text, valueToString asciiPlatform v = .ok text)) ∧
    filterData asciiPlatform [.obj [("n", .num 7)], .obj [("n", .num 0)]] (some "7") ["n"] =
      .ok [.obj [("n", .num 7)]] ∧
    ∃ kept : List JVal, filterData asciiPlatform [.obj [("n", .num 7)], .obj [("n", .num 0)]]
        (some "7") ["n"] = .ok kept ∧
      (∃ keep : JVal → Bool,
        kept = [JVal.obj [("n", .num 7)], .obj [("n", .num 0)]].filter keep ∧
        ∀ r, keep r = true ↔ ∃ f ∈ ["n"], ∃ v text,
          getNestedValue asciiPlatform r f = .ok v ∧
          v.truthy = true ∧ valueToString asciiPlatform v = .ok text ∧
          ∃ pre post : String,
            asciiPlatform.toLowerCase text = pre ++ asciiPlatform.toLowerCase "7" ++ post) ∧
      (∀ r, (∀ f ∈ ["n"], ∃ v, getNestedValue asciiPlatform r f = .ok v ∧ v.absent = true) →
        r ∉ kept) :=
  have hresolves : ∀ r ∈ [JVal.obj [("n", .num 7)], .obj [("n", .num 0)]], ∀ f ∈ ["n"],
      ∃ v, getNestedValue asciiPlatform r f = .ok v ∧
        (v.truthy = true → ∃ text, valueToString asciiPlatform v = .ok text) := by
    intro r hr f hf
    simp only [List.mem_cons, List.mem_singleton, List.not_mem_nil, or_false] at hr hf
    subst hf
    rcases hr with rfl | rfl
    · exact ⟨.json (.num 7), rfl, fun _ => ⟨"7", rfl⟩⟩
    · exact ⟨.json (.num 0), rfl, fun _ => ⟨"0", rfl⟩⟩
  ⟨by decide, hresolves, rfl,
    (filterData_keeps_truthy_matches asciiPlatform
      [.obj [("n", .num 7)], .obj [("n", .num 0)]] ["n"]).2.2.1 "7" (by decide) hresolves⟩

/-! ## Lemmas: the sort on a comparator that orders by a key -/

theorem binaryInsert_spec {α β : Type} [LinearOrder β] (cmp : α → α → Except JsError Int)
    (key : α → β) (dom : α → Prop) (hkeyed : KeyedOn cmp key dom) (pivot : α)
    (hpivot : dom pivot) :
    ∀ (fuel : Nat) (segment : List α), segment.length ≤ fuel → (∀ e ∈ segment, dom e) →
      segment.Pairwise (fun x y => key x ≤ key y) →
      ∃ before behind, binaryInsert cmp pivot fuel segment = .ok (before ++ pivot :: behind) ∧
        segment = before ++ behind ∧ (∀ e ∈ before, key e ≤ key pivot) ∧
        (∀ e ∈ behind, key pivot < key e) := by
  intro fuel
  induction fuel with
  | zero =>
    intro segment hlen _ _
    have hnil : segment = [] := List.length_eq_zero.mp (Nat.le_zero.mp hlen)
    subst hnil
    exact ⟨[], [], rfl, rfl, by simp, by simp⟩
  | succ fuel ih =>
    intro segment hlen hdom hsorted
    cases hdrop : segment.drop (segment.length / 2) with
    | nil =>
      have hle : segment.length ≤ segment.length / 2 := List.drop_eq_nil_iff.mp hdrop
      have hnil : segment = [] := List.length_eq_zero.mp (by omega)
      subst hnil
      exact ⟨[], [], by simp [binaryInsert], rfl, by simp, by simp⟩
    | cons e after =>
      have hsplit : segment = segment.take (segment.length / 2) ++ e :: after := by
        rw [← hdrop, List.take_append_drop]
      have he : dom e := hdom e (by rw [hsplit]; simp)
      have hlenTake : (segment.take (segment.length / 2)).length ≤ fuel := by
        rw [List.length_take]
        omega
      have hlenAfter : after.length ≤ fuel := by
        have h1 : (segment.drop (segment.length / 2)).length = after.length + 1 := by
          rw [hdrop]; rfl
        rw [List.length_drop] at h1
        omega
      have hsorted' : (segment.take (segment.length / 2) ++ e :: after).Pairwise
          (fun x y => key x ≤ key y) := by rw [← hsplit]; exact hsorted
      rw [List.pairwise_append, List.pairwise_cons] at hsorted'
      obtain ⟨hsortedTake, ⟨heAfter, hsortedAfter⟩, hcross⟩ := hsorted'
      obtain ⟨order, horder, hlt⟩ := hkeyed pivot e hpivot he
      by_cases hneg : order < 0
      · obtain ⟨before, behind, hres, hseg, hbefore, hbehind⟩ :=
          ih (segment.take (segment.length / 2)) hlenTake
            (fun x hx => hdom x (List.mem_of_mem_take hx)) hsortedTake
        refine ⟨before, behind ++ e :: after, ?_, ?_, hbefore, ?_⟩
        · simp only [binaryInsert, hdrop, horder, hneg, ↓reduceIte, hres, List.append_assoc,
            List.cons_append]
        · rw [← List.append_assoc, ← hseg]
          exact hsplit
        · intro x hx
          have hpe : key pivot < key e := hlt.mp hneg
          rcases List.mem_append.mp hx with hx | hx
          · exact hbehind x hx
          · rcases List.mem_cons.mp hx with rfl | hx
            · exact hpe
            · exact lt_of_lt_of_le hpe (heAfter x hx)
      · obtain ⟨before, behind, hres, hseg, hbefore, hbehind⟩ :=
          ih after hlenAfter
            (fun x hx => hdom x (by rw [hsplit]; simp [hx])) hsortedAfter
        refine ⟨segment.take (segment.length / 2) ++ e :: before, behind, ?_, ?_, ?_, hbehind⟩
        · simp only [binaryInsert, hdrop, horder, hneg, ↓reduceIte, hres, List.append_assoc,
            List.cons_append]
        · rw [List.append_assoc, List.cons_append, ← hseg]
          exact hsplit
        · intro x hx
          have hep : key e ≤ key pivot := le_of_not_lt (fun h => hneg (hlt.mpr h))
          rcases List.mem_append.mp hx with hx | hx
          · exact le_trans (hcross x hx e (List.mem_cons_self e after)) hep
          · rcases List.mem_cons.mp hx with rfl | hx
            · exact hep
            · exact hbefore x hx

theorem binaryInsertionSort_spec {α β : Type} [LinearOrder β]
    (cmp : α → α → Except JsError Int) (key : α → β) (dom : α → Prop)
    (hkeyed : KeyedOn cmp key dom) :
    ∀ (rest sorted : List α), (∀ e ∈ sorted, dom e) → (∀ e ∈ rest, dom e) →
      sorted.Pairwise (fun x y => key x ≤ key y) →
      ∃ out, binaryInsertionSort cmp sorted rest = .ok out ∧ out.Perm (sorted ++ rest) ∧
        out.Pairwise (fun x y => key x ≤ key y) ∧
        ∀ a b, key a = key b →
          (List.Sublist [a, b] sorted ∨ (a ∈ sorted ∧ b ∈ rest) ∨ List.Sublist [a, b] rest) →
          List.Sublist [a, b] out := by
  intro rest
  induction rest with
  | nil =>
    intro sorted _ _ hsorted
    refine ⟨sorted, rfl, by simp, hsorted, ?_⟩
    intro a b _ h
    rcases h with h | ⟨_, h⟩ | h
    · exact h
    · simp at h
    · simp at h
  | cons pivot rest ih =>
    intro sorted hdomSorted hdomRest hsorted
    have hpivot : dom pivot := hdomRest pivot (List.mem_cons_self pivot rest)
    obtain ⟨before, behind, hres, hseg, hbefore, hbehind⟩ :=
      binaryInsert_spec cmp key dom hkeyed pivot hpivot sorted.length sorted (le_refl _)
        hdomSorted hsorted
    have hsortedSplit := hsorted
    rw [hseg, List.pairwise_append] at hsortedSplit
    obtain ⟨hsortedBefore, hsortedBehind, hcross⟩ := hsortedSplit
    have hdom' : ∀ e ∈ before ++ pivot :: behind, dom e := by
      intro x hx
      rcases List.mem_append.mp hx with hx | hx
      · exact hdomSorted x (by rw [hseg]; exact List.mem_append_left _ hx)
      · rcases List.mem_cons.mp hx with rfl | hx
        · exact hpivot
        · exact hdomSorted x (by rw [hseg]; exact List.mem_append_right _ hx)
    have hsorted' : (before ++ pivot :: behind).Pairwise (fun x y => key x ≤ key y) := by
      rw [List.pairwise_append, List.pairwise_cons]
      refine ⟨hsortedBefore, ⟨fun x hx => le_of_lt (hbehind x hx), hsortedBehind⟩, ?_⟩
      intro x hx y hy
      rcases List.mem_cons.mp hy with rfl | hy
      · exact hbefore x hx
      · exact hcross x hx y hy
    obtain ⟨out, hout, hperm, hpair, hstable⟩ :=
      ih (before ++ pivot :: behind) hdom'
        (fun x hx => hdomRest x (List.mem_cons_of_mem pivot hx)) hsorted'
    refine ⟨out, ?_, ?_, hpair, ?_⟩
    · simp only [binaryInsertionSort, hres, hout]
    · refine hperm.trans ?_
      rw [hseg]
      simp only [List.append_assoc, List.cons_append]
      exact List.Perm.append_left before List.perm_middle.symm
    · intro a b hab h
      apply hstable a b hab
      have hsub : List.Sublist sorted (before ++ pivot :: behind) := by
        rw [hseg]
        exact List.Sublist.append_left (List.sublist_cons_self pivot behind) before
      rcases h with h | ⟨ha, hb⟩ | h
      · exact Or.inl (h.trans hsub)
      · rcases List.mem_cons.mp hb with rfl | hb
        · left
          have ha' : a ∈ before := by
            rw [hseg] at ha
            rcases List.mem_append.mp ha with ha | ha
            · exact ha
            · exact absurd hab (ne_of_gt (hbehind a ha))
          exact List.Sublist.append (List.singleton_sublist.mpr ha')
            (List.Sublist.cons₂ b (List.nil_sublist behind))
        · exact Or.inr (Or.inl ⟨hsub.subset ha, hb⟩)
      · cases h with
        | cons _ h => exact Or.inr (Or.inr h)
        | cons₂ _ h =>
          refine Or.inr (Or.inl ⟨?_, List.singleton_sublist.mp h⟩)
          simp

theorem extendRun_spec {α β : Type} [LinearOrder β] (cmp : α → α → Except JsError Int)
    (key : α → β) (dom : α → Prop) (hkeyed : KeyedOn cmp key dom) (descending : Bool) :
    ∀ (rest : List α) (previous : α) (run : List α), dom previous → (∀ e ∈ rest, dom e) →
      ∃ taken remaining,
        extendRun cmp descending previous rest run = .ok (taken.reverse ++ run, remaining) ∧
        rest = taken ++ remaining ∧
        List.Chain (fun x y => if descending then key y < key x else key x ≤ key y)
          previous taken := by
  intro rest
  induction rest with
  | nil =>
    intro previous run _ _
    exact ⟨[], [], rfl, rfl, List.Chain.nil⟩
  | cons current rest ih =>
    intro previous run hprevious hdom
    have hcurrent : dom current := hdom current (List.mem_cons_self current rest)
    obtain ⟨order, horder, hlt⟩ := hkeyed current previous hcurrent hprevious
    by_cases hstop : (if descending then decide (order ≥ 0) else decide (order < 0)) = true
    · refine ⟨[], current :: rest, ?_, rfl, List.Chain.nil⟩
      simp only [extendRun, horder, hstop, ↓reduceIte, List.reverse_nil, List.nil_append]
    · obtain ⟨taken, remaining, hres, hrest, hchain⟩ :=
        ih current (current :: run) hcurrent
          (fun x hx => hdom x (List.mem_cons_of_mem current hx))
      refine ⟨current :: taken, remaining, ?_, ?_, List.Chain.cons ?_ hchain⟩
      · simp only [extendRun, horder, hstop, Bool.false_eq_true, ↓reduceIte, hres,
          List.reverse_cons, List.append_assoc, List.singleton_append]
      · rw [hrest]; rfl
      · cases descending with
        | true =>
          simp only [↓reduceIte, ge_iff_le, decide_eq_true_eq, not_le] at hstop ⊢
          exact hlt.mp hstop
        | false =>
          simp only [Bool.false_eq_true, ↓reduceIte, decide_eq_true_eq, not_lt] at hstop ⊢
          exact le_of_not_lt (fun h => absurd (hlt.mpr h) (not_lt.mpr hstop))

theorem countAndMakeRun_spec {α β : Type} [LinearOrder β] (cmp : α → α → Except JsError Int)
    (key : α → β) (dom : α → Prop) (hkeyed : KeyedOn cmp key dom) (data : List α)
    (hdom : ∀ e ∈ data, dom e) :
    ∃ run remaining sortedRun, countAndMakeRun cmp data = .ok (sortedRun, remaining) ∧
      data = run ++ remaining ∧
      ((sortedRun = run ∧ run.Pairwise (fun x y => key x ≤ key y)) ∨
        (sortedRun = run.reverse ∧ run.Pairwise (fun x y => key y < key x))) := by
  match data, hdom with
  | [], _ => exact ⟨[], [], [], rfl, rfl, Or.inl ⟨rfl, List.Pairwise.nil⟩⟩
  | [x], _ => exact ⟨[x], [], [x], rfl, rfl, Or.inl ⟨rfl, List.pairwise_singleton _ _⟩⟩
  | first :: second :: rest, hdom =>
    have hfirst : dom first := hdom first (by simp)
    have hsecond : dom second := hdom second (by simp)
    obtain ⟨order, horder, hlt⟩ := hkeyed second first hsecond hfirst
    obtain ⟨taken, remaining, hres, hrest, hchain⟩ :=
      extendRun_spec cmp key dom hkeyed (decide (order < 0)) rest second [second, first]
        hsecond (fun x hx => hdom x (by simp [hx]))
    by_cases hneg : order < 0
    · have hdec : decide (order < 0) = true := by simp [hneg]
      rw [hdec] at hres hchain
      refine ⟨first :: second :: taken, remaining, taken.reverse ++ [second, first], ?_, ?_,
        Or.inr ⟨by simp, ?_⟩⟩
      · simp [countAndMakeRun, horder, hres, hneg]
      · rw [hrest]; rfl
      · have htrans : IsTrans α (fun x y => key y < key x) :=
          ⟨fun _ _ _ h1 h2 => lt_trans h2 h1⟩
        rw [← List.chain_iff_pairwise]
        refine List.Chain.cons (hlt.mp hneg) ?_
        simpa using hchain
    · have hdec : decide (order < 0) = false := by simp [hneg]
      rw [hdec] at hres hchain
      refine ⟨first :: second :: taken, remaining, first :: second :: taken, ?_, ?_,
        Or.inl ⟨rfl, ?_⟩⟩
      · simp [countAndMakeRun, horder, hres, hneg]
      · rw [hrest]; rfl
      · have htrans : IsTrans α (fun x y => key x ≤ key y) :=
          ⟨fun _ _ _ h1 h2 => le_trans h1 h2⟩
        rw [← List.chain_iff_pairwise]
        refine List.Chain.cons (le_of_not_lt (fun h => hneg (hlt.mpr h))) ?_
        simpa using hchain

theorem arraySort_spec {α β : Type} [LinearOrder β] (cmp : α → α → Except JsError Int)
    (key : α → β) (dom : α → Prop) (hkeyed : KeyedOn cmp key dom) (data : List α)
    (hdom : ∀ e ∈ data, dom e) :
    ∃ out, arraySort cmp data = .ok out ∧ out.Perm data ∧
      out.Pairwise (fun x y => key x ≤ key y) ∧
      ∀ a b, key a = key b → List.Sublist [a, b] data → List.Sublist [a, b] out := by
  obtain ⟨run, remaining, sortedRun, hrun, hdata, hcases⟩ :=
    countAndMakeRun_spec cmp key dom hkeyed data hdom
  have hpermRun : sortedRun.Perm run := by
    rcases hcases with ⟨h, -⟩ | ⟨h, -⟩
    · rw [h]
    · rw [h]; exact List.reverse_perm run
  have hsortedRun : sortedRun.Pairwise (fun x y => key x ≤ key y) := by
    rcases hcases with ⟨h, hp⟩ | ⟨h, hp⟩
    · rw [h]; exact hp
    · rw [h, List.pairwise_reverse]
      exact hp.imp (fun h => le_of_lt h)
  have hdomRun : ∀ e ∈ sortedRun, dom e := fun e he =>
    hdom e (by rw [hdata]; exact List.mem_append_left _ (hpermRun.subset he))
  have hdomRest : ∀ e ∈ remaining, dom e := fun e he =>
    hdom e (by rw [hdata]; exact List.mem_append_right _ he)
  obtain ⟨out, hout, hperm, hpair, hstable⟩ :=
    binaryInsertionSort_spec cmp key dom hkeyed remaining sortedRun hdomRun hdomRest
      hsortedRun
  refine ⟨out, ?_, ?_, hpair, ?_⟩
  · simp only [arraySort, hrun, hout]
  · rw [hdata]
    exact hperm.trans (hpermRun.append_right remaining)
  · intro a b hab hsub
    apply hstable a b hab
    rw [hdata, List.sublist_append_iff] at hsub
    obtain ⟨l₁, l₂, hsplit, h₁, h₂⟩ := hsub
    match l₁, hsplit, h₁ with
    | [], hsplit, _ =>
      simp only [List.nil_append] at hsplit
      rw [← hsplit] at h₂
      exact Or.inr (Or.inr h₂)
    | [x], hsplit, h₁ =>
      simp only [List.singleton_append, List.cons.injEq] at hsplit
      obtain ⟨rfl, hl₂⟩ := hsplit
      rw [← hl₂] at h₂
      exact Or.inr (Or.inl ⟨hpermRun.symm.subset (List.singleton_sublist.mp h₁),
        List.singleton_sublist.mp h₂⟩)
    | x :: y :: l, hsplit, h₁ =>
      simp only [List.cons_append, List.cons.injEq] at hsplit
      obtain ⟨rfl, rfl, hnil⟩ := hsplit
      have hl : l = [] := (List.append_eq_nil.mp hnil.symm).1
      subst hl
      rcases hcases with ⟨h, -⟩ | ⟨-, hp⟩
      · rw [h]
        exact Or.inl h₁
      · have hstrict := hp.sublist h₁
        rw [List.pairwise_pair] at hstrict
        exact absurd hab (ne_of_gt hstrict)

theorem ltCodeUnits_iff (a b : List Nat) : ltCodeUnits a b = true ↔ a < b := by
  induction a generalizing b with
  | nil =>
    cases b with
    | nil => simp [ltCodeUnits]
    | cons y ys => simp [ltCodeUnits, List.nil_lt_cons]
  | cons x xs ih =>
    cases b with
    | nil =>
      simp only [ltCodeUnits, Bool.false_eq_true, false_iff]
      exact List.Lex.not_nil_right _ _
    | cons y ys =>
      simp only [ltCodeUnits, Bool.or_eq_true, decide_eq_true_eq, Bool.and_eq_true,
        beq_iff_eq, ih]
      constructor
      · rintro (hlt | ⟨heq, hrest⟩)
        · exact List.Lex.rel hlt
        · subst heq
          exact List.Lex.cons hrest
      · intro hlex
        cases hlex with
        | rel hlt => exact Or.inl hlt
        | cons hrest => exact Or.inr ⟨rfl, hrest⟩

theorem toPrimitive_json (P : Platform) (v : JVal) (hv : ∀ fields, v ≠ .obj fields) :
    toPrimitive P (.json v) = .ok v := by
  cases v with
  | obj fields => exact absurd rfl (hv fields)
  | _ => rfl

theorem compareByField_primitive (P : Platform) (field : String) (ascending : Bool)
    (a b va vb : JVal) (ha : getNestedValue P a field = .ok (.json va))
    (hb : getNestedValue P b field = .ok (.json vb)) (hva : ∀ fields, va ≠ .obj fields)
    (hvb : ∀ fields, vb ≠ .obj fields) :
    compareByField P field ascending a b =
      .ok (if ltPrimitive va vb then (if ascending then -1 else 1)
        else if ltPrimitive vb va then (if ascending then 1 else -1) else 0) := by
  simp only [compareByField, ha, hb, jsLt, jsGt, toPrimitive_json P va hva,
    toPrimitive_json P vb hvb, bind, Except.bind, pure, Except.pure]
  cases ltPrimitive va vb <;> cases ltPrimitive vb va <;> rfl

theorem sortData_keyed {β : Type} [LinearOrder β] (P : Platform) (data : List JVal)
    (field : String) (ascending : Bool) (key : JVal → β)
    (hprimitive : ∀ x ∈ data, getNestedValue P x field = .ok (.json (resolvedJson P field x)) ∧
      ∀ fields, resolvedJson P field x ≠ .obj fields)
    (hlt : ∀ x ∈ data, ∀ y ∈ data,
      ltPrimitive (resolvedJson P field x) (resolvedJson P field y) = true ↔ key x < key y) :
    ∃ sorted, sortData P data field ascending = .ok sorted ∧ sorted.Perm data ∧
      sorted.Pairwise (fun x y => if ascending then key x ≤ key y else key y ≤ key x) ∧
      ∀ a b, key a = key b → List.Sublist [a, b] data → List.Sublist [a, b] sorted := by
  have hcmp : ∀ x ∈ data, ∀ y ∈ data, compareByField P field ascending x y =
      .ok (if ltPrimitive (resolvedJson P field x) (resolvedJson P field y)
          then (if ascending then -1 else 1)
        else if ltPrimitive (resolvedJson P field y) (resolvedJson P field x)
          then (if ascending then 1 else -1) else 0) :=
    fun x hx y hy => compareByField_primitive P field ascending x y _ _
      (hprimitive x hx).1 (hprimitive y hy).1 (hprimitive x hx).2 (hprimitive y hy).2
  cases ascending with
  | true =>
    have hkeyed : KeyedOn (compareByField P field true) key (· ∈ data) := by
      intro x y hx hy
      refine ⟨_, hcmp x hx y hy, ?_⟩
      rw [← hlt x hx y hy]
      cases ltPrimitive (resolvedJson P field x) (resolvedJson P field y) <;>
        cases ltPrimitive (resolvedJson P field y) (resolvedJson P field x) <;> simp
    obtain ⟨out, hout, hperm, hpair, hstable⟩ :=
      arraySort_spec _ key (· ∈ data) hkeyed data (fun _ h => h)
    exact ⟨out, hout, hperm, by simpa using hpair, hstable⟩
  | false =>
    have hkeyed : KeyedOn (compareByField P field false)
        (fun r => OrderDual.toDual (key r)) (· ∈ data) := by
      intro x y hx hy
      refine ⟨_, hcmp x hx y hy, ?_⟩
      rw [OrderDual.toDual_lt_toDual, ← hlt y hy x hx]
      cases hxy : ltPrimitive (resolvedJson P field x) (resolvedJson P field y) <;>
        cases hyx : ltPrimitive (resolvedJson P field y) (resolvedJson P field x) <;> simp
      exact lt_asymm ((hlt x hx y hy).mp hxy) ((hlt y hy x hx).mp hyx)
    obtain ⟨out, hout, hperm, hpair, hstable⟩ :=
      arraySort_spec _ (fun r => OrderDual.toDual (key r)) (· ∈ data) hkeyed data
        (fun _ h => h)
    refine ⟨out, hout, hperm, ?_, ?_⟩
    · simpa using hpair
    · intro a b hab hsub
      exact hstable a b (by simp [hab]) hsub

theorem resolvedJson_eq (P : Platform) (field : String) (r v : JVal)
    (h : getNestedValue P r field = .ok (.json v)) : resolvedJson P field r = v := by
  simp [resolvedJson, h]

theorem ltPrimitive_num (m n : Int) : ltPrimitive (.num m) (.num n) = true ↔ m < n := by
  simp [ltPrimitive, JVal.toNumber]

theorem ltPrimitive_str (s t : String) :
    ltPrimitive (.str s) (.str t) = true ↔ utf16 s < utf16 t := by
  have h : ltPrimitive (.str s) (.str t) = ltCodeUnits (utf16 s) (utf16 t) := rfl
  rw [h, ltCodeUnits_iff]

theorem ltPrimitive_nullish (u v : JVal) (hu : u.nullish = true) (hv : v.nullish = true) :
    ltPrimitive u v = false := by
  cases u <;> cases v <;> simp_all [JVal.nullish] <;> rfl

theorem absent_json (v : Value) (h : v.absent = true) :
    ∃ j, v = .json j ∧ j.nullish = true := by
  cases v with
  | json j => exact ⟨j, rfl, h⟩
  | native name => simp [Value.absent] at h

theorem sortData_numbers (P : Platform) (data : List JVal) (field : String)
    (ascending : Bool)
    (hnum : ∀ r ∈ data, ∃ n, getNestedValue P r field = .ok (.json (.num n))) :
    ∃ sorted, sortData P data field ascending = .ok sorted ∧ sorted.Perm data ∧
      sorted.Pairwise (fun x y =>
        if ascending then numKey (resolvedJson P field x) ≤ numKey (resolvedJson P field y)
        else numKey (resolvedJson P field y) ≤ numKey (resolvedJson P field x)) ∧
      ∀ a b, numKey (resolvedJson P field a) = numKey (resolvedJson P field b) →
        List.Sublist [a, b] data → List.Sublist [a, b] sorted := by
  apply sortData_keyed P data field ascending (fun r => numKey (resolvedJson P field r))
  · intro x hx
    obtain ⟨n, hn⟩ := hnum x hx
    rw [resolvedJson_eq P field x _ hn]
    exact ⟨hn, fun fields h => by cases h⟩
  · intro x hx y hy
    obtain ⟨m, hm⟩ := hnum x hx
    obtain ⟨n, hn⟩ := hnum y hy
    rw [resolvedJson_eq P field x _ hm, resolvedJson_eq P field y _ hn]
    exact ltPrimitive_num m n

theorem sortData_strings (P : Platform) (data : List JVal) (field : String)
    (ascending : Bool)
    (hstr : ∀ r ∈ data, ∃ s, getNestedValue P r field = .ok (.json (.str s))) :
    ∃ sorted, sortData P data field ascending = .ok sorted ∧ sorted.Perm data ∧
      sorted.Pairwise (fun x y =>
        if ascending then strKey (resolvedJson P field x) ≤ strKey (resolvedJson P field y)
        else strKey (resolvedJson P field y) ≤ strKey (resolvedJson P field x)) ∧
      ∀ a b, strKey (resolvedJson P field a) = strKey (resolvedJson P field b) →
        List.Sublist [a, b] data → List.Sublist [a, b] sorted := by
  apply sortData_keyed P data field ascending (fun r => strKey (resolvedJson P field r))
  · intro x hx
    obtain ⟨s, hs⟩ := hstr x hx
    rw [resolvedJson_eq P field x _ hs]
    exact ⟨hs, fun fields h => by cases h⟩
  · intro x hx y hy
    obtain ⟨s, hs⟩ := hstr x hx
    obtain ⟨t, ht⟩ := hstr y hy
    rw [resolvedJson_eq P field x _ hs, resolvedJson_eq P field y _ ht]
    exact ltPrimitive_str s t

theorem sortData_absent (P : Platform) (data : List JVal) (field : String)
    (ascending : Bool)
    (habsent : ∀ r ∈ data, ∃ v, getNestedValue P r field = .ok v ∧ v.absent = true) :
    ∃ sorted, sortData P data field ascending = .ok sorted ∧ sorted.Perm data ∧
      ∀ a b, List.Sublist [a, b] data → List.Sublist [a, b] sorted := by
  have hjson : ∀ r ∈ data, ∃ j, getNestedValue P r field = .ok (.json j) ∧
      j.nullish = true := by
    intro r hr
    obtain ⟨v, hv, hvabsent⟩ := habsent r hr
    obtain ⟨j, rfl, hj⟩ := absent_json v hvabsent
    exact ⟨j, hv, hj⟩
  obtain ⟨sorted, hsorted, hperm, -, hstable⟩ :=
    sortData_keyed P data field ascending (fun _ => ()) (by
      intro x hx
      obtain ⟨j, hj, hnull⟩ := hjson x hx
      rw [resolvedJson_eq P field x _ hj]
      refine ⟨hj, fun fields h => ?_⟩
      subst h
      simp [JVal.nullish] at hnull) (by
      intro x hx y hy
      obtain ⟨j, hj, hjnull⟩ := hjson x hx
      obtain ⟨k, hk, hknull⟩ := hjson y hy
      rw [resolvedJson_eq P field x _ hj, resolvedJson_eq P field y _ hk,
        ltPrimitive_nullish j k hjnull hknull]
      simp)
  exact ⟨sorted, hsorted, hperm, fun a b h => hstable a b rfl h⟩

/-! ## DataUtils.sortData -/

/-- C2, as the claim states it, fails. In the seven records `{id:1}`, `{id:2}`,
`{id:3,v:5}`, `{id:4,v:1}`, `{id:5}`, `{id:6,v:1}`, `{id:7,v:1}` the records 6 and 7 resolve
`v` to the equal value `1`, and 6 stands before 7; sorted ascending by `v` the order is
1, 2, 4, 7, 3, 5, 6, with 7 before 6. The records without `v` compare as ties with every
record, so the comparator is not a consistent ordering, and the binary insertion of the sort
puts record 7 in front of record 3 without meeting record 6. -/
theorem sortData_reorders_equal_values :
    getNestedValue asciiPlatform (.obj [("id", .num 6), ("v", .num 1)]) "v" =
      getNestedValue asciiPlatform (.obj [("id", .num 7), ("v", .num 1)]) "v" ∧
    List.Sublist [JVal.obj [("id", .num 6), ("v", .num 1)], .obj [("id", .num 7), ("v", .num 1)]]
      [.obj [("id", .num 1)], .obj [("id", .num 2)], .obj [("id", .num 3), ("v", .num 5)],
        .obj [("id", .num 4), ("v", .num 1)], .obj [("id", .num 5)],
        .obj [("id", .num 6), ("v", .num 1)], .obj [("id", .num 7), ("v", .num 1)]] ∧
    sortData asciiPlatform
        [.obj [("id", .num 1)], .obj [("id", .num 2)], .obj [("id", .num 3), ("v", .num 5)],
          .obj [("id", .num 4), ("v", .num 1)], .obj [("id", .num 5)],
          .obj [("id", .num 6), ("v", .num 1)], .obj [("id", .num 7), ("v", .num 1)]] "v" =
      .ok [.obj [("id", .num 1)], .obj [("id", .num 2)], .obj [("id", .num 4), ("v", .num 1)],
        .obj [("id", .num 7), ("v", .num 1)], .obj [("id", .num 3), ("v", .num 5)],
        .obj [("id", .num 5)], .obj [("id", .num 6), ("v", .num 1)]] :=
  ⟨rfl,
    List.Sublist.cons _ (List.Sublist.cons _ (List.Sublist.cons _ (List.Sublist.cons _
      (List.Sublist.cons _ (List.Sublist.cons₂ _ (List.Sublist.cons₂ _
        (List.Sublist.slnil))))))),
    rfl⟩

/-- C2, amended: `sortData` is stable on every sequence of records whose resolved values at
the field are mutually comparable or all absent: all numbers, or all strings, or all
`undefined` or `null`. For such a sequence, every field path and either direction, on every
platform, it returns a permutation of the input in which any two records whose resolved values
are equal, or are both absent, stand in the same relative order as in the input. -/
theorem sortData_stable (P : Platform) (data : List JVal) (field : String) (ascending : Bool)
    (hcomparable : (∀ r ∈ data, ∃ n, getNestedValue P r field = .ok (.json (.num n))) ∨
      (∀ r ∈ data, ∃ s, getNestedValue P r field = .ok (.json (.str s))) ∨
      (∀ r ∈ data, ∃ v, getNestedValue P r field = .ok v ∧ v.absent = true))
    (a b : JVal) (va vb : Value) (ha : getNestedValue P a field = .ok va)
    (hb : getNestedValue P b field = .ok vb)
    (htie : va = vb ∨ (va.absent = true ∧ vb.absent = true))
    (horder : List.Sublist [a, b] data) :
    ∃ sorted, sortData P data field ascending = .ok sorted ∧ sorted.Perm data ∧
      List.Sublist [a, b] sorted := by
  have hamem : a ∈ data := horder.subset (by simp)
  have hbmem : b ∈ data := horder.subset (by simp)
  rcases hcomparable with hnum | hstr | habsent
  · obtain ⟨sorted, hsorted, hperm, -, hstable⟩ := sortData_numbers P data field ascending hnum
    refine ⟨sorted, hsorted, hperm, hstable a b ?_ horder⟩
    obtain ⟨m, hm⟩ := hnum a hamem
    obtain ⟨n, hn⟩ := hnum b hbmem
    rw [resolvedJson_eq P field a _ hm, resolvedJson_eq P field b _ hn]
    rw [hm] at ha
    rw [hn] at hb
    cases ha
    cases hb
    rcases htie with h | ⟨h, -⟩
    · cases h; rfl
    · simp [Value.absent, JVal.nullish] at h
  · obtain ⟨sorted, hsorted, hperm, -, hstable⟩ := sortData_strings P data field ascending hstr
    refine ⟨sorted, hsorted, hperm, hstable a b ?_ horder⟩
    obtain ⟨s, hs⟩ := hstr a hamem
    obtain ⟨t, ht⟩ := hstr b hbmem
    rw [resolvedJson_eq P field a _ hs, resolvedJson_eq P field b _ ht]
    rw [hs] at ha
    rw [ht] at hb
    cases ha
    cases hb
    rcases htie with h | ⟨h, -⟩
    · cases h; rfl
    · simp [Value.absent, JVal.nullish] at h
  · obtain ⟨sorted, hsorted, hperm, hstable⟩ := sortData_absent P data field ascending habsent
    exact ⟨sorted, hsorted, hperm, hstable a b horder⟩

/-- C2, amended, at the instance of the specification: `[{id:1,v:5},{id:2,v:5},{id:3,v:1}]`
sorted ascending by `v` gives the order id 3, id 1, id 2, and the two records with `v` equal
to 5 keep their order. -/
theorem sortData_stable_witness :
    sortData asciiPlatform [.obj [("id", .num 1), ("v", .num 5)],
        .obj [("id", .num 2), ("v", .num 5)], .obj [("id", .num 3), ("v", .num 1)]] "v" =
      .ok [.obj [("id", .num 3), ("v", .num 1)], .obj [("id", .num 1), ("v", .num 5)],
        .obj [("id", .num 2), ("v", .num 5)]] ∧
    ∃ sorted, sortData asciiPlatform [.obj [("id", .num 1), ("v", .num 5)],
        .obj [("id", .num 2), ("v", .num 5)], .obj [("id", .num 3), ("v", .num 1)]] "v" true =
          .ok sorted ∧
      sorted.Perm [.obj [("id", .num 1), ("v", .num 5)],
        .obj [("id", .num 2), ("v", .num 5)], .obj [("id", .num 3), ("v", .num 1)]] ∧
      List.Sublist [JVal.obj [("id", .num 1), ("v", .num 5)],
        .obj [("id", .num 2), ("v", .num 5)]] sorted :=
  ⟨rfl, sortData_stable asciiPlatform _ "v" true
    (Or.inl (by
      intro r hr
      simp only [List.mem_cons, List.mem_singleton, List.not_mem_nil, or_false] at hr
      rcases hr with rfl | rfl | rfl
      · exact ⟨5, rfl⟩
      · exact ⟨5, rfl⟩
      · exact ⟨1, rfl⟩))
    (.obj [("id", .num 1), ("v", .num 5)]) (.obj [("id", .num 2), ("v", .num 5)])
    (.json (.num 5)) (.json (.num 5)) rfl rfl (Or.inl rfl)
    (List.Sublist.cons₂ _ (List.Sublist.cons₂ _ (List.nil_sublist _)))⟩

/-- C3: for every sequence of records whose resolved values at the field are all numbers, or
all strings, `sortData` returns a permutation of the input in which the resolved values of
consecutive records are non-decreasing when `ascending` is true (the default) and
non-increasing when it is false. -/
theorem sortData_sorted (P : Platform) (data : List JVal) (field : String) (ascending : Bool)
    (hcomparable : (∀ r ∈ data, ∃ n, getNestedValue P r field = .ok (.json (.num n))) ∨
      (∀ r ∈ data, ∃ s, getNestedValue P r field = .ok (.json (.str s)))) :
    sortData P data field = sortData P data field true ∧
    ∃ sorted, sortData P data field ascending = .ok sorted ∧ sorted.Perm data ∧
      sorted.Chain' fun x y => ∃ vx vy, getNestedValue P x field = .ok (.json vx) ∧
        getNestedValue P y field = .ok (.json vy) ∧
        if ascending then valueLe vx vy else valueLe vy vx := by
  refine ⟨rfl, ?_⟩
  rcases hcomparable with hnum | hstr
  · obtain ⟨sorted, hsorted, hperm, hpair, -⟩ := sortData_numbers P data field ascending hnum
    refine ⟨sorted, hsorted, hperm, List.Pairwise.chain' (hpair.imp_of_mem ?_)⟩
    intro x y hx hy hxy
    obtain ⟨m, hm⟩ := hnum x (hperm.subset hx)
    obtain ⟨n, hn⟩ := hnum y (hperm.subset hy)
    rw [resolvedJson_eq P field x _ hm, resolvedJson_eq P field y _ hn] at hxy
    exact ⟨_, _, hm, hn, hxy⟩
  · obtain ⟨sorted, hsorted, hperm, hpair, -⟩ := sortData_strings P data field ascending hstr
    refine ⟨sorted, hsorted, hperm, List.Pairwise.chain' (hpair.imp_of_mem ?_)⟩
    intro x y hx hy hxy
    obtain ⟨s, hs⟩ := hstr x (hperm.subset hx)
    obtain ⟨t, ht⟩ := hstr y (hperm.subset hy)
    rw [resolvedJson_eq P field x _ hs, resolvedJson_eq P field y _ ht] at hxy
    exact ⟨_, _, hs, ht, hxy⟩

/-- C3 at an instance: `[{v:5},{v:1},{v:3}]` sorted descending by `v`. -/
theorem sortData_sorted_witness :
    ((∀ r ∈ [JVal.obj [("v", .num 5)], .obj [("v", .num 1)], .obj [("v", .num 3)]],
        ∃ n, getNestedValue asciiPlatform r "v" = .ok (.json (.num n))) ∨
      (∀ r ∈ [JVal.obj [("v", .num 5)], .obj [("v", .num 1)], .obj [("v", .num 3)]],
        ∃ s, getNestedValue asciiPlatform r "v" = .ok (.json (.str s)))) ∧
    sortData asciiPlatform [.obj [("v", .num 5)], .obj [("v", .num 1)], .obj [("v", .num 3)]]
        "v" false =
      .ok [.obj [("v", .num 5)], .obj [("v", .num 3)], .obj [("v", .num 1)]] ∧
    ∃ sorted, sortData asciiPlatform
        [.obj [("v", .num 5)], .obj [("v", .num 1)], .obj [("v", .num 3)]] "v" false =
          .ok sorted ∧
      sorted.Perm [.obj [("v", .num 5)], .obj [("v", .num 1)], .obj [("v", .num 3)]] ∧
      sorted.Chain' fun x y => ∃ vx vy, getNestedValue asciiPlatform x "v" = .ok (.json vx) ∧
        getNestedValue asciiPlatform y "v" = .ok (.json vy) ∧
        if false then valueLe vx vy else valueLe vy vx :=
  have hnum : ∀ r ∈ [JVal.obj [("v", .num 5)], .obj [("v", .num 1)], .obj [("v", .num 3)]],
      ∃ n, getNestedValue asciiPlatform r "v" = .ok (.json (.num n)) := by
    intro r hr
    simp only [List.mem_cons, List.mem_singleton, List.not_mem_nil, or_false] at hr
    rcases hr with rfl | rfl | rfl
    · exact ⟨5, rfl⟩
    · exact ⟨1, rfl⟩
    · exact ⟨3, rfl⟩
  ⟨Or.inl hnum, rfl, (sortData_sorted asciiPlatform _ "v" false (Or.inl hnum)).2⟩

end FetchData
